import Mathlib

/-!
Verification of the `stocks-app` Nasdaq data fetcher (`app/data_fetcher.py`).

The development shallowly embeds the fetcher's core:
* a relational store model for SQLAlchemy sessions (`Store`, `upsert`),
* the HTML-table parsers (`parse_history`, `parse_trades`,
  `parse_trades_page_count`) over already-extracted cell matrices and
  a small DOM abstraction,
* the thread-pool orchestrator (`Fetcher.fetch`) as task scheduling plus
  an outcome-collection pass,
* the per-task bodies `fetch_history` / `fetch_trades` with an event trace
  recording the order of database operations.
-/

namespace StocksApp

/-- A database field value: SQL NULL, a string, or a numeric/date value
(identified by an integer code; only equality of values matters to the
upsert logic, so dates and floats are represented abstractly). -/
inductive Value where
  | null
  | str (s : String)
  | num (n : Int)
  deriving DecidableEq, Repr

/-- A Python `dict` of model fields, as an association list with distinct keys
(Python dict keys are unique). -/
abbrev Data := List (String × Value)

/-- Overwrite key `k` with value `v` in an attribute list: replace the first
binding of `k`, or append if absent.  Models Python attribute assignment
(`setattr` / `dict.update`). -/
def setEntry : List (String × Value) → String → Value → List (String × Value)
  | [], k, v => [(k, v)]
  | (k', v') :: rest, k, v =>
      if k' = k then (k, v) :: rest else (k', v') :: setEntry rest k v

/-- Remove the first binding of key `k`.  Models `dict.pop(k)`'s effect on
the dict. -/
def removeEntry : List (String × Value) → String → List (String × Value)
  | [], _ => []
  | (k', v') :: rest, k => if k' = k then rest else (k', v') :: removeEntry rest k

/-- A database row: surrogate primary key `rid` plus attribute bindings. -/
structure Rec where
  rid : Nat
  fields : List (String × Value)
  deriving DecidableEq, Repr

/-- Read attribute `k` of a row; an unset column reads as NULL. -/
def getField (r : Rec) (k : String) : Value :=
  (r.fields.lookup k).getD Value.null

/-- The constraints SQLAlchemy declared for a model in `app/models.py`:
its unique constraints (each a list of column names) and its
non-nullable columns. -/
structure Model where
  uniques : List (List String)
  required : List String
  deriving DecidableEq, Repr

/-- One model's table: committed rows plus the next surrogate id the
sequence will assign. -/
structure Store where
  rows : List Rec
  nextId : Nat
  deriving DecidableEq, Repr

/-- `model(**data)`: a fresh instance whose attributes are set from `data`
in order (the id shown is the one `flush` would assign). -/
def mkRec (rid : Nat) (data : Data) : Rec :=
  ⟨rid, data.foldl (fun fs kv => setEntry fs kv.1 kv.2) []⟩

/-- The `for key, value in data.items(): setattr(instance, key, value)` loop. -/
def setFields (r : Rec) (data : Data) : Rec :=
  ⟨r.rid, data.foldl (fun fs kv => setEntry fs kv.1 kv.2) r.fields⟩

/-- Whether inserting row `r` would violate one of `m`'s unique constraints
against resident row `r0` (SQL semantics: a NULL never conflicts). -/
def rowConflicts (m : Model) (r0 r : Rec) : Bool :=
  m.uniques.any fun u =>
    u.all fun k => decide (getField r k ≠ Value.null ∧ getField r0 k = getField r k)

/-- Whether row `r` satisfies `m`'s NOT NULL constraints. -/
def notNullOk (m : Model) (r : Rec) : Bool :=
  m.required.all fun k => decide (getField r k ≠ Value.null)

/-- Whether `session.flush()` raises `IntegrityError` for pending row `r`. -/
def flushFails (m : Model) (st : Store) (r : Rec) : Bool :=
  !notNullOk m r || st.rows.any (fun r0 => rowConflicts m r0 r)

/-- The `filter_by(**key_fields)` condition: row `r` equals `kf` on every
listed field. -/
def matchesKeys (r : Rec) (kf : List (String × Value)) : Bool :=
  kf.all fun kv => decide (getField r kv.1 = kv.2)

/-- `session.query(model).filter_by(**key_fields).first()`. -/
def findByKeys (st : Store) (kf : List (String × Value)) : Option Rec :=
  st.rows.find? fun r => matchesKeys r kf

/-- Errors `Fetcher.upsert` can raise besides the caught `IntegrityError`:
`data[key]` on a missing key (`KeyError`), and `setattr` on the `None`
returned by `.first()` when no row matches (`AttributeError`). -/
inductive UpsertErr where
  | keyError
  | noneSetattr
  deriving DecidableEq, Repr

instance {ε α : Type} [DecidableEq ε] [DecidableEq α] : DecidableEq (Except ε α) := fun x y =>
  match x, y with
  | .ok a, .ok b =>
      if h : a = b then isTrue (by rw [h]) else isFalse (by intro hh; cases hh; exact h rfl)
  | .error a, .error b =>
      if h : a = b then isTrue (by rw [h]) else isFalse (by intro hh; cases hh; exact h rfl)
  | .ok _, .error _ => isFalse (by intro hh; cases hh)
  | .error _, .ok _ => isFalse (by intro hh; cases hh)

/-- `key_fields = {key: data[key] for key in keys}` — raises `KeyError`
when a key is absent from `data`. -/
def getKeyFields (data : Data) : List String → Except UpsertErr (List (String × Value))
  | [] => .ok []
  | k :: rest =>
      match data.lookup k with
      | none => .error .keyError
      | some v => do
          let kf ← getKeyFields data rest
          .ok ((k, v) :: kf)

/-- `Fetcher.upsert(model, data, keys)`: add a fresh instance and flush; on
`IntegrityError` roll back, look the resident row up by the natural-key
fields and overwrite every field from `data` on it; commit and return the
resident row together with the committed table. -/
def upsert (m : Model) (st : Store) (data : Data) (keys : List String) :
    Except UpsertErr (Rec × Store) := do
  let key_fields ← getKeyFields data keys
  let inst := mkRec st.nextId data
  if flushFails m st inst then
    match findByKeys st key_fields with
    | none => .error .noneSetattr
    | some r =>
        let r' := setFields r data
        .ok (r', ⟨st.rows.map fun r0 => if r0.rid = r.rid then r' else r0, st.nextId⟩)
  else
    .ok (inst, ⟨st.rows ++ [inst], st.nextId + 1⟩)

/-- `session.add(model(**data)); session.commit()`: plain insert. -/
def addRow (st : Store) (data : Data) : Rec × Store :=
  let r := mkRec st.nextId data
  (r, ⟨st.rows ++ [r], st.nextId + 1⟩)

/-! ## Parser (`Parser.parse_history`, `Parser.parse_trades`,
`Parser.parse_trades_page_count`)

The parsers are modeled over the cell matrix `Parser.parse_table` extracts
(each row a list of trimmed cell texts) and over a small DOM abstraction
holding the query results the trades parser performs.  The stdlib
conversions `float(...)` and `dateutil.parser.parse(...).date()` are
abstract partial functions `toF` / `toD` (returning `none` exactly when
Python raises `ValueError`). -/

/-- `s.replace(',', '')`: strip thousands separators. -/
def stripCommas (s : String) : String :=
  ⟨s.data.filter fun c => c ≠ ','⟩

/-- One history row: a `Quote`-shaped record as built by `parse_history`. -/
structure HistItem (F D : Type) where
  date : D
  open_price : F
  high_price : F
  low_price : F
  close_price : F
  volume : F
  deriving DecidableEq, Repr

/-- The per-row body of `parse_history`'s loop: a row with exactly 6 cells
whose conversions all succeed yields a record; any other row is skipped
(logged as a warning in the source). -/
def convHistoryRow {F D : Type} (toF : String → Option F) (toD : String → Option D) :
    List String → Option (HistItem F D)
  | [c0, c1, c2, c3, c4, c5] =>
      match toD c0, toF (stripCommas c1), toF (stripCommas c2), toF (stripCommas c3),
          toF (stripCommas c4), toF (stripCommas c5) with
      | some d, some o, some hi, some lo, some cl, some v => some ⟨d, o, hi, lo, cl, v⟩
      | _, _, _, _, _, _ => none
  | _ => none

/-- `Parser.parse_history`'s row loop over the extracted table. -/
def parse_history {F D : Type} (toF : String → Option F) (toD : String → Option D)
    (table : List (List String)) : List (HistItem F D) :=
  table.filterMap (convHistoryRow toF toD)

/-- One insider-trade row as built by `parse_trades` (insider name/relation
embedded; `last_price` optional). -/
structure TradeItem (F D : Type) where
  insider : String
  relation : String
  last_date : D
  transaction_type : String
  owner_type : String
  shares_traded : F
  last_price : Option F
  shares_hold : F
  deriving DecidableEq, Repr

/-- `float(row[6]) if row[6] else None`: an empty cell maps to no value;
a non-empty cell must convert (no comma stripping here in the source). -/
def convLastPrice {F : Type} (toF : String → Option F) (c : String) : Option (Option F) :=
  if c = "" then some none else (toF c).map some

/-- The per-row body of `parse_trades`'s loop: exactly 8 cells, all
conversions must succeed, otherwise the row is skipped. -/
def convTradeRow {F D : Type} (toF : String → Option F) (toD : String → Option D) :
    List String → Option (TradeItem F D)
  | [c0, c1, c2, c3, c4, c5, c6, c7] =>
      match toD c2, toF (stripCommas c5), convLastPrice toF c6, toF (stripCommas c7) with
      | some d, some tr, some lp, some hold => some ⟨c0, c1, d, c3, c4, tr, lp, hold⟩
      | _, _, _, _ => none
  | _ => none

/-- The anchor tag with id `quotes_content_left_lb_LastPage`, when present:
its `href` attribute may itself be absent. -/
structure TagData where
  href : Option String
  deriving DecidableEq, Repr

/-- The `div` with class `genTable`, when present: the `table` inside it may
be absent. -/
structure TableDiv where
  tableRows : Option (List (List String))
  deriving DecidableEq, Repr

/-- The insider-trades page DOM, reduced to the queries `parse_trades` and
`parse_trades_page_count` perform on it. -/
structure TradesDom where
  lastPageTag : Option TagData
  genTableDiv : Option TableDiv
  deriving DecidableEq, Repr

/-- `str.split(sep)` for a one-character separator (the separators the
page-count path uses are all single characters). -/
def splitChar (sep : Char) : List Char → List (List Char)
  | [] => [[]]
  | c :: rest =>
      if c = sep then [] :: splitChar sep rest
      else
        match splitChar sep rest with
        | [] => [[c]]
        | g :: gs => (c :: g) :: gs

/-- Re-join groups with the separator (undoes all but the first split, as
`split(sep, 1)` keeps the remainder intact). -/
def joinChar (sep : Char) : List (List Char) → List Char
  | [] => []
  | [g] => g
  | g :: gs => g ++ sep :: joinChar sep gs

/-- `urllib.parse.urlparse(url).query`: the part after the first `?`,
with any fragment (after `#`) removed first. -/
def urlQuery (url : String) : String :=
  let noFrag := (splitChar '#' url.data).headD []
  match splitChar '?' noFrag with
  | [] => ""
  | [_] => ""
  | _ :: rest => ⟨joinChar '?' rest⟩

/-- `urllib.parse.unquote_plus` restricted to the `+` → space step
(the pagination hrefs at issue carry no percent escapes). -/
def unquotePlus (l : List Char) : String :=
  ⟨l.map fun c => if c = '+' then ' ' else c⟩

/-- `urllib.parse.parse_qs` with default options, as an ordered binding
list: fields split on `&`; a field without `=` or with an empty value is
dropped; repeated names keep all bindings in order (so the first binding of
a name is `parse_qs(q)[name][0]`). -/
def parseQs (query : String) : List (String × String) :=
  (splitChar '&' query.data).foldr
    (fun part acc =>
      match splitChar '=' part with
      | [] => acc
      | [_] => acc
      | name :: vparts =>
          match joinChar '=' vparts with
          | [] => acc
          | value => (unquotePlus name, unquotePlus value) :: acc)
    []

/-- Value of a non-empty all-digit character list. -/
def digitsVal (ds : List Char) : Option Nat :=
  if ds ≠ [] ∧ ds.all Char.isDigit then
    some (ds.foldl (fun acc c => acc * 10 + (c.toNat - 48)) 0)
  else none

/-- Python `int(s)` on a decimal string: surrounding whitespace stripped,
optional sign, digits; anything else raises `ValueError` (`none`). -/
def pyInt (s : String) : Option Int :=
  match ((s.data.dropWhile Char.isWhitespace).reverse.dropWhile Char.isWhitespace).reverse with
  | '-' :: ds => (digitsVal ds).map fun n => -(n : Int)
  | '+' :: ds => (digitsVal ds).map fun n => (n : Int)
  | ds => (digitsVal ds).map fun n => (n : Int)

/-- Failures a parse can raise: `ParsingError` from `find_tag` on a missing
DOM element, `ValueError` from `int(...)` on a malformed page number. -/
inductive FetchError where
  | parsingError
  | valueError
  deriving DecidableEq, Repr

/-- `Parser.parse_trades_page_count`: find the last-page link
(`ParsingError` if absent), take its `href` (defaulting to the empty
string), and run `int(parse_qs(urlparse(href).query).get('page', ['1'])[0])`. -/
def parse_trades_page_count (dom : TradesDom) : Except FetchError Int :=
  match dom.lastPageTag with
  | none => .error .parsingError
  | some tag =>
      let href := tag.href.getD ""
      let pageStr := ((parseQs (urlQuery href)).lookup "page").getD "1"
      match pyInt pageStr with
      | none => .error .valueError
      | some n => .ok n

/-- `Parser.parse_trades`: discover the page count, then, only when the
requested page does not exceed it, locate the `genTable` div and its table
and convert the rows; beyond the page count the accumulated result stays
empty. -/
def parse_trades {F D : Type} (toF : String → Option F) (toD : String → Option D)
    (dom : TradesDom) (page : Nat) : Except FetchError (List (TradeItem F D)) := do
  let page_count ← parse_trades_page_count dom
  if (page : Int) ≤ page_count then
    match dom.genTableDiv with
    | none => .error .parsingError
    | some dv =>
        match dv.tableRows with
        | none => .error .parsingError
        | some table => .ok (table.filterMap (convTradeRow toF toD))
  else
    .ok []

/-! ## Fetcher (`Fetcher.fetch`, `Fetcher.fetch_history`, `Fetcher.fetch_trades`)

The per-task bodies are modeled over the four tables, threading the store
state and recording an event trace in database-operation order.  Parsed
rows enter the task bodies as the field dicts the parsers build. -/

/-- `Stock` in `app/models.py`: `ticker` unique and non-nullable. -/
def stockModel : Model := ⟨[["ticker"]], ["ticker"]⟩

/-- `Quote` in `app/models.py`: unique `(stock_id, date)`; all columns
non-nullable. -/
def quoteModel : Model :=
  ⟨[["stock_id", "date"]],
   ["stock_id", "date", "open_price", "close_price", "high_price", "low_price", "volume"]⟩

/-- `Insider` in `app/models.py`: `name` unique; `name`, `relation`
non-nullable. -/
def insiderModel : Model := ⟨[["name"]], ["name", "relation"]⟩

/-- `Trade` in `app/models.py`: no unique constraint; everything but
`last_price` non-nullable. -/
def tradeModel : Model :=
  ⟨[], ["stock_id", "insider_id", "transaction_type", "owner_type", "last_date",
        "shares_traded", "shares_hold"]⟩

/-- The application database: one table per model. -/
structure DB where
  stocks : Store
  quotes : Store
  insiders : Store
  trades : Store
  deriving DecidableEq, Repr

/-- Database operations a task performs, in program order. -/
inductive Ev where
  | upsertStock (data : Data) (rid : Nat)
  | upsertQuote (data : Data)
  | upsertInsider (data : Data) (rid : Nat)
  | addTrade (data : Data)
  | commitEv
  deriving DecidableEq, Repr

/-- A single-quote character (used in the result messages). -/
def squote : String := ⟨[Char.ofNat 39]⟩

/-- The `for item in history` loop of `fetch_history`: set `stock_id` on the
item and upsert it as a `Quote` with natural key `('date', 'stock_id')`. -/
def historyLoop (db : DB) (stockId : Nat) :
    List Data → Except UpsertErr (DB × List Ev)
  | [] => .ok (db, [])
  | item :: rest => do
      let item' := setEntry item "stock_id" (Value.num stockId)
      let (_, qs) ← upsert quoteModel db.quotes item' ["date", "stock_id"]
      let (db', evs) ← historyLoop { db with quotes := qs } stockId rest
      .ok (db', Ev.upsertQuote item' :: evs)

/-- `Fetcher.fetch_history` after parsing: upsert the `Stock`, then upsert
each history item as a `Quote` carrying the stock's id; any raised error
propagates (after a session rollback).  Returns the database, the result
message and the event trace. -/
def fetch_history (db : DB) (ticker : String) (history : List Data) :
    Except UpsertErr (DB × String × List Ev) := do
  let stockData : Data := [("ticker", Value.str ticker)]
  let (stock, ss) ← upsert stockModel db.stocks stockData ["ticker"]
  let (db', evs) ← historyLoop { db with stocks := ss } stock.rid history
  .ok (db',
       toString history.length ++ " history items for " ++ squote ++ ticker ++ squote
         ++ " has been collected",
       Ev.upsertStock stockData stock.rid :: evs)

/-- The `for trade in trades` loop of `fetch_trades`: pop the insider's
name/relation out of the row, upsert the `Insider`, then add the `Trade`
referencing the stock and insider ids and commit. -/
def tradesLoop (db : DB) (stockId : Nat) :
    List Data → Except UpsertErr (DB × List Ev)
  | [] => .ok (db, [])
  | trade :: rest =>
      match trade.lookup "insider", trade.lookup "relation" with
      | some vi, some vr => do
          let insider_data : Data := [("name", vi), ("relation", vr)]
          let (insider, is') ← upsert insiderModel db.insiders insider_data ["name"]
          let trade' := removeEntry (removeEntry trade "insider") "relation"
          let tradeData : Data :=
            ("stock_id", Value.num stockId) :: ("insider_id", Value.num insider.rid) :: trade'
          let (_, ts') := addRow db.trades tradeData
          let db1 := { db with insiders := is', trades := ts' }
          let (db', evs) ← tradesLoop db1 stockId rest
          .ok (db', Ev.upsertInsider insider_data insider.rid :: Ev.addTrade tradeData
                :: Ev.commitEv :: evs)
      | _, _ => .error .keyError

/-- `Fetcher.fetch_trades` after parsing: upsert the `Stock`, then for each
trade row upsert the `Insider` and insert the `Trade`; any raised error
propagates (after a session rollback). -/
def fetch_trades (db : DB) (ticker : String) (page : Nat) (trades : List Data) :
    Except UpsertErr (DB × String × List Ev) := do
  let stockData : Data := [("ticker", Value.str ticker)]
  let (stock, ss) ← upsert stockModel db.stocks stockData ["ticker"]
  let (db', evs) ← tradesLoop { db with stocks := ss } stock.rid trades
  .ok (db',
       toString trades.length ++ " trade items for " ++ squote ++ ticker ++ squote
         ++ " has been collected (page: " ++ toString page ++ ")",
       Ev.upsertStock stockData stock.rid :: evs)

/-- A unit of work submitted to the executor by `Fetcher.fetch`. -/
inductive FetchTask where
  | history (ticker : String)
  | trades (ticker : String) (page : Nat)
  deriving DecidableEq, Repr

/-- The inner submission loop body for one ticker: one history task
followed by one trades task for each `page + 1` with
`page in range(max_trades_pages)`. -/
def taskGroup (maxTradesPages : Nat) (t : String) : List FetchTask :=
  FetchTask.history t :: ((List.range maxTradesPages).map fun p => FetchTask.trades t (p + 1))

/-- The submission loop of `Fetcher.fetch`: the futures list, in
submission order. -/
def scheduledTasks (tickers : List String) (maxTradesPages : Nat) : List FetchTask :=
  tickers.flatMap (taskGroup maxTradesPages)

/-- A log line produced by the collection loop of `Fetcher.fetch`. -/
inductive LogEntry where
  | info (msg : String)
  | error (msg : String)
  deriving DecidableEq, Repr

/-- The body of the `as_completed` loop: `future.result()` either raises
(logged as an error carrying only the exception text) or returns the task's
result message (logged as info); nothing is re-raised. -/
def taskLog (outcome : Except String String) : LogEntry :=
  match outcome with
  | .error e => .error ("Fetching task failed: " ++ e)
  | .ok r => .info ("Fetching task finished: " ++ r)

/-- The collection loop of `Fetcher.fetch`: the futures complete in some
order (a permutation of the submission order) and each contributes exactly
one log line determined by its own outcome. -/
def fetchCollect (outcome : FetchTask → Except String String)
    (completionOrder : List FetchTask) : List LogEntry :=
  completionOrder.map fun t => taskLog (outcome t)

/-- Whether `pat` occurs as a contiguous substring of the character list. -/
def hasSubstrAux (pat : List Char) : List Char → Bool
  | [] => pat.isEmpty
  | c :: rest => pat.isPrefixOf (c :: rest) || hasSubstrAux pat rest

/-- Whether `pat` occurs as a contiguous substring of `s`. -/
def hasSubstr (s pat : String) : Bool :=
  hasSubstrAux pat.data s.data

/-! ## Lemmas about attribute lists -/

theorem lookup_setEntry_self (fs : List (String × Value)) (k : String) (v : Value) :
    (setEntry fs k v).lookup k = some v := by
  induction fs with
  | nil => simp [setEntry, List.lookup]
  | cons kv rest ih =>
      obtain ⟨k', v'⟩ := kv
      by_cases h : k' = k
      · subst h
        simp [setEntry, List.lookup]
      · have hb : (k == k') = false := beq_eq_false_iff_ne.mpr (Ne.symm h)
        simp [setEntry, h, List.lookup, hb, ih]

theorem lookup_setEntry_ne (fs : List (String × Value)) (k k' : String) (v : Value)
    (h : k' ≠ k) : (setEntry fs k v).lookup k' = fs.lookup k' := by
  have hb : (k' == k) = false := beq_eq_false_iff_ne.mpr h
  induction fs with
  | nil => simp [setEntry, List.lookup, hb]
  | cons kv rest ih =>
      obtain ⟨k'', v''⟩ := kv
      by_cases h2 : k'' = k
      · subst h2
        simp [setEntry, List.lookup, hb]
      · simp only [setEntry, if_neg h2]
        by_cases h3 : k' = k''
        · subst h3
          simp [List.lookup]
        · have hb3 : (k' == k'') = false := beq_eq_false_iff_ne.mpr h3
          simp [List.lookup, hb3, ih]

theorem lookup_eq_none_of_not_mem (l : List (String × Value)) (k : String)
    (h : k ∉ l.map Prod.fst) : l.lookup k = none := by
  induction l with
  | nil => rfl
  | cons kv rest ih =>
      obtain ⟨k', v'⟩ := kv
      simp only [List.map_cons, List.mem_cons, not_or] at h
      have hb : (k == k') = false := beq_eq_false_iff_ne.mpr h.1
      simp [List.lookup, hb, ih h.2]

theorem lookup_of_mem_nodup (l : List (String × Value)) (k : String) (v : Value)
    (hnd : (l.map Prod.fst).Nodup) (hm : (k, v) ∈ l) : l.lookup k = some v := by
  induction l with
  | nil => cases hm
  | cons kv rest ih =>
      obtain ⟨k', v'⟩ := kv
      simp only [List.map_cons, List.nodup_cons] at hnd
      rcases List.mem_cons.mp hm with heq | hmem
      · cases heq
        simp [List.lookup]
      · have hk : k ≠ k' := by
          rintro rfl
          exact hnd.1 (List.mem_map.mpr ⟨(k, v), hmem, rfl⟩)
        have hb : (k == k') = false := beq_eq_false_iff_ne.mpr hk
        simp [List.lookup, hb, ih hnd.2 hmem]

theorem foldl_setEntry_lookup (data : Data) (hnd : (data.map Prod.fst).Nodup) :
    ∀ (fs0 : List (String × Value)) (k : String),
      (data.foldl (fun fs kv => setEntry fs kv.1 kv.2) fs0).lookup k
        = (data.lookup k).or (fs0.lookup k) := by
  induction data with
  | nil => intro fs0 k; simp [List.lookup]
  | cons kv rest ih =>
      obtain ⟨k0, v0⟩ := kv
      simp only [List.map_cons, List.nodup_cons] at hnd
      intro fs0 k
      rw [List.foldl_cons, ih hnd.2]
      by_cases h : k = k0
      · subst h
        rw [lookup_eq_none_of_not_mem rest k hnd.1]
        simp [List.lookup, lookup_setEntry_self]
      · have hb : (k == k0) = false := beq_eq_false_iff_ne.mpr h
        rw [lookup_setEntry_ne _ _ _ _ h]
        simp [List.lookup, hb]

theorem getField_mkRec (data : Data) (hnd : (data.map Prod.fst).Nodup) (i : Nat)
    (k : String) : getField (mkRec i data) k = (data.lookup k).getD Value.null := by
  unfold getField mkRec
  rw [foldl_setEntry_lookup data hnd]
  simp [List.lookup]

theorem getField_setFields (r : Rec) (data : Data) (hnd : (data.map Prod.fst).Nodup)
    (k : String) :
    getField (setFields r data) k = ((data.lookup k).or (r.fields.lookup k)).getD Value.null := by
  unfold getField setFields
  rw [foldl_setEntry_lookup data hnd]

theorem getField_mkRec_mem (data : Data) (hnd : (data.map Prod.fst).Nodup) (i : Nat)
    (k : String) (v : Value) (hm : (k, v) ∈ data) : getField (mkRec i data) k = v := by
  rw [getField_mkRec data hnd, lookup_of_mem_nodup data k v hnd hm]
  rfl

theorem getField_setFields_mem (r : Rec) (data : Data) (hnd : (data.map Prod.fst).Nodup)
    (k : String) (v : Value) (hm : (k, v) ∈ data) : getField (setFields r data) k = v := by
  rw [getField_setFields r data hnd, lookup_of_mem_nodup data k v hnd hm]
  rfl

theorem setFields_rid (r : Rec) (data : Data) : (setFields r data).rid = r.rid := rfl

/-! ## Lemmas about `upsert` -/

theorem getKeyFields_eq (data : Data) (keys : List String)
    (h : ∀ k ∈ keys, (data.lookup k).isSome) :
    getKeyFields data keys
      = .ok (keys.map fun k => (k, (data.lookup k).getD Value.null)) := by
  induction keys with
  | nil => rfl
  | cons k rest ih =>
      have hk := h k (List.mem_cons_self k rest)
      obtain ⟨v, hv⟩ := Option.isSome_iff_exists.mp hk
      have ihh := ih fun k' hk' => h k' (List.mem_cons_of_mem _ hk')
      simp [getKeyFields, hv, ihh, Bind.bind, Except.bind]

theorem upsert_flush_ok (m : Model) (st : Store) (data : Data) (keys : List String)
    (hkeys : ∀ k ∈ keys, (data.lookup k).isSome)
    (hflush : flushFails m st (mkRec st.nextId data) = false) :
    upsert m st data keys
      = .ok (mkRec st.nextId data, ⟨st.rows ++ [mkRec st.nextId data], st.nextId + 1⟩) := by
  unfold upsert
  rw [getKeyFields_eq data keys hkeys]
  simp [Bind.bind, Except.bind, hflush]

theorem upsert_conflict_found (m : Model) (st : Store) (data : Data) (keys : List String)
    (r : Rec)
    (hkeys : ∀ k ∈ keys, (data.lookup k).isSome)
    (hflush : flushFails m st (mkRec st.nextId data) = true)
    (hfind : findByKeys st (keys.map fun k => (k, (data.lookup k).getD Value.null)) = some r) :
    upsert m st data keys
      = .ok (setFields r data,
          ⟨st.rows.map fun x => if x.rid = r.rid then setFields r data else x, st.nextId⟩) := by
  unfold upsert
  rw [getKeyFields_eq data keys hkeys]
  simp [Bind.bind, Except.bind, hflush, hfind]

theorem upsert_conflict_missing (m : Model) (st : Store) (data : Data) (keys : List String)
    (hkeys : ∀ k ∈ keys, (data.lookup k).isSome)
    (hflush : flushFails m st (mkRec st.nextId data) = true)
    (hfind : findByKeys st (keys.map fun k => (k, (data.lookup k).getD Value.null)) = none) :
    upsert m st data keys = .error .noneSetattr := by
  unfold upsert
  rw [getKeyFields_eq data keys hkeys]
  simp [Bind.bind, Except.bind, hflush, hfind]

theorem matchesKeys_map (r : Rec) (keys : List String) (f : String → Value) :
    matchesKeys r (keys.map fun k => (k, f k))
      = keys.all fun k => decide (getField r k = f k) := by
  unfold matchesKeys
  induction keys with
  | nil => rfl
  | cons k rest ih => simp [List.all_cons, ih]

/-- **C1.** `upsert(model, data, keys)`: if the flush of the fresh instance
raises no integrity error, the newly created record built from `data` is
appended to the table and returned unchanged; if the flush fails while a
resident record matches the natural-key fields of `data` (a uniqueness
violation on the natural key), the insert is rolled back (no new row, id
sequence untouched), the matching resident record is looked up by
natural-key equality, every field provided in `data` is overwritten on it,
and the updated record is committed and returned. -/
theorem C1_upsert_insert_or_update (m : Model) (st : Store) (data : Data)
    (keys : List String)
    (hnd : (data.map Prod.fst).Nodup)
    (hkeys : ∀ k ∈ keys, (data.lookup k).isSome) :
    (flushFails m st (mkRec st.nextId data) = false →
      upsert m st data keys
        = .ok (mkRec st.nextId data, ⟨st.rows ++ [mkRec st.nextId data], st.nextId + 1⟩)
      ∧ ∀ k v, (k, v) ∈ data → getField (mkRec st.nextId data) k = v)
    ∧ (flushFails m st (mkRec st.nextId data) = true →
      ∀ r0 ∈ st.rows,
        (∀ k ∈ keys, getField r0 k = (data.lookup k).getD Value.null) →
        ∃ r, findByKeys st (keys.map fun k => (k, (data.lookup k).getD Value.null)) = some r
          ∧ upsert m st data keys
              = .ok (setFields r data,
                  ⟨st.rows.map fun x => if x.rid = r.rid then setFields r data else x,
                   st.nextId⟩)
          ∧ r ∈ st.rows
          ∧ (∀ k ∈ keys, getField r k = (data.lookup k).getD Value.null)
          ∧ (∀ k v, (k, v) ∈ data → getField (setFields r data) k = v)
          ∧ setFields r data
              ∈ (st.rows.map fun x => if x.rid = r.rid then setFields r data else x)) := by
  constructor
  · intro hflush
    refine ⟨upsert_flush_ok m st data keys hkeys hflush, ?_⟩
    intro k v hm
    exact getField_mkRec_mem data hnd st.nextId k v hm
  · intro hflush r0 hr0 hr0k
    have hmatch : matchesKeys r0 (keys.map fun k => (k, (data.lookup k).getD Value.null))
        = true := by
      rw [matchesKeys_map]
      exact List.all_eq_true.mpr fun k hk => decide_eq_true (hr0k k hk)
    have hsome : (findByKeys st
        (keys.map fun k => (k, (data.lookup k).getD Value.null))).isSome := by
      unfold findByKeys
      exact List.find?_isSome.mpr ⟨r0, hr0, hmatch⟩
    obtain ⟨r, hr⟩ := Option.isSome_iff_exists.mp hsome
    have hr' : List.find?
        (fun x => matchesKeys x (keys.map fun k => (k, (data.lookup k).getD Value.null)))
        st.rows = some r := hr
    have hrmem : r ∈ st.rows := List.mem_of_find?_eq_some hr'
    have hrmatch0 := List.find?_some hr'
    have hrmatch : matchesKeys r (keys.map fun k => (k, (data.lookup k).getD Value.null))
        = true := hrmatch0
    have hrk : ∀ k ∈ keys, getField r k = (data.lookup k).getD Value.null := by
      rw [matchesKeys_map] at hrmatch
      intro k hk
      exact of_decide_eq_true (List.all_eq_true.mp hrmatch k hk)
    refine ⟨r, hr, upsert_conflict_found m st data keys r hkeys hflush hr, hrmem, hrk,
      fun k v hm => getField_setFields_mem r data hnd k v hm, ?_⟩
    refine List.mem_map.mpr ⟨r, hrmem, ?_⟩
    simp

theorem C1_upsert_insert_or_update_witness :
    (((([("ticker", Value.str "AAPL")] : Data).map Prod.fst).Nodup)
      ∧ (∀ k ∈ ["ticker"], ((([("ticker", Value.str "AAPL")] : Data).lookup k).isSome))
      ∧ flushFails stockModel ⟨[], 0⟩ (mkRec 0 [("ticker", Value.str "AAPL")]) = false)
    ∧ (upsert stockModel ⟨[], 0⟩ [("ticker", Value.str "AAPL")] ["ticker"]
        = .ok (mkRec 0 [("ticker", Value.str "AAPL")],
            ⟨[mkRec 0 [("ticker", Value.str "AAPL")]], 1⟩)
      ∧ ∀ k v, (k, v) ∈ ([("ticker", Value.str "AAPL")] : Data) →
          getField (mkRec 0 [("ticker", Value.str "AAPL")]) k = v) :=
  ⟨⟨by decide, by decide, by decide⟩,
   (C1_upsert_insert_or_update stockModel ⟨[], 0⟩ [("ticker", Value.str "AAPL")] ["ticker"]
      (by decide) (by decide)).1 (by decide)⟩

/-! ## Uniqueness preservation by `upsert` -/

/-- The natural-key field values `data` carries for `keys`. -/
def keyVals (d : Data) (keys : List String) : List (String × Value) :=
  keys.map fun k => (k, (d.lookup k).getD Value.null)

/-- Database invariant: primary keys are distinct and below the sequence. -/
def wfStore (st : Store) : Prop :=
  (st.rows.map Rec.rid).Nodup ∧ ∀ r ∈ st.rows, r.rid < st.nextId

instance (st : Store) : Decidable (wfStore st) :=
  inferInstanceAs (Decidable ((st.rows.map Rec.rid).Nodup ∧ ∀ r ∈ st.rows, r.rid < st.nextId))

theorem find?_decomp {α : Type} (p : α → Bool) (l : List α) (r : α)
    (h : l.find? p = some r) :
    ∃ l1 l2, l = l1 ++ r :: l2 ∧ ∀ x ∈ l1, p x = false := by
  induction l with
  | nil => cases h
  | cons a rest ih =>
      by_cases hp : p a
      · rw [List.find?_cons_of_pos _ hp] at h
        cases h
        exact ⟨[], rest, rfl, by simp⟩
      · rw [List.find?_cons_of_neg _ (by simpa using hp)] at h
        obtain ⟨l1, l2, he, hall⟩ := ih h
        refine ⟨a :: l1, l2, by rw [he]; rfl, ?_⟩
        intro x hx
        rcases List.mem_cons.mp hx with rfl | hx'
        · simpa using hp
        · exact hall x hx'

theorem all_congr_mem {α : Type} (l : List α) (p q : α → Bool)
    (h : ∀ x ∈ l, p x = q x) : l.all p = l.all q := by
  induction l with
  | nil => rfl
  | cons a rest ih =>
      simp only [List.all_cons, h a (List.mem_cons_self a rest)]
      rw [ih fun x hx => h x (List.mem_cons_of_mem a hx)]

theorem notNullOk_mkRec (m : Model) (d : Data) (hnd : (d.map Prod.fst).Nodup) (i : Nat)
    (hreq : ∀ k ∈ m.required, (d.lookup k).getD Value.null ≠ Value.null) :
    notNullOk m (mkRec i d) = true := by
  unfold notNullOk
  refine List.all_eq_true.mpr fun k hk => decide_eq_true ?_
  rw [getField_mkRec d hnd]
  exact hreq k hk

theorem rowConflicts_eq_matches (m : Model) (keys : List String) (d : Data) (r0 : Rec)
    (i : Nat) (hm : m.uniques = [keys]) (hnd : (d.map Prod.fst).Nodup)
    (hnn : ∀ k ∈ keys, (d.lookup k).getD Value.null ≠ Value.null) :
    rowConflicts m r0 (mkRec i d) = matchesKeys r0 (keyVals d keys) := by
  unfold rowConflicts keyVals
  rw [hm, matchesKeys_map]
  simp only [List.any_cons, List.any_nil, Bool.or_false]
  apply all_congr_mem
  intro k hk
  rw [getField_mkRec d hnd]
  exact decide_eq_decide.mpr ⟨fun h => h.2, fun h => ⟨hnn k hk, h⟩⟩

theorem matchesKeys_mkRec (d : Data) (keys : List String)
    (hnd : (d.map Prod.fst).Nodup) (i : Nat) :
    matchesKeys (mkRec i d) (keyVals d keys) = true := by
  rw [keyVals, matchesKeys_map]
  exact List.all_eq_true.mpr fun k _ => decide_eq_true (getField_mkRec d hnd i k)

theorem matchesKeys_setFields (r : Rec) (d : Data) (keys : List String)
    (hnd : (d.map Prod.fst).Nodup)
    (hkeys : ∀ k ∈ keys, (d.lookup k).isSome) :
    matchesKeys (setFields r d) (keyVals d keys) = true := by
  rw [keyVals, matchesKeys_map]
  refine List.all_eq_true.mpr fun k hk => decide_eq_true ?_
  rw [getField_setFields r d hnd]
  obtain ⟨v, hv⟩ := Option.isSome_iff_exists.mp (hkeys k hk)
  rw [hv]
  rfl

theorem map_replace_eq (l1 l2 : List Rec) (r r' : Rec)
    (hnd : ((l1 ++ r :: l2).map Rec.rid).Nodup) :
    (l1 ++ r :: l2).map (fun x => if x.rid = r.rid then r' else x) = l1 ++ r' :: l2 := by
  rw [List.map_append, List.map_cons] at hnd
  have hmid := List.nodup_middle.mp hnd
  rw [List.nodup_cons] at hmid
  have hnot := hmid.1
  rw [List.mem_append, not_or] at hnot
  rw [List.map_append, List.map_cons, if_pos rfl]
  have h1 : l1.map (fun x => if x.rid = r.rid then r' else x) = l1.map id := by
    apply List.map_congr_left
    intro x hx
    have : x.rid ≠ r.rid := fun he => hnot.1 (he ▸ List.mem_map_of_mem Rec.rid hx)
    simp [this]
  have h2 : l2.map (fun x => if x.rid = r.rid then r' else x) = l2.map id := by
    apply List.map_congr_left
    intro x hx
    have : x.rid ≠ r.rid := fun he => hnot.2 (he ▸ List.mem_map_of_mem Rec.rid hx)
    simp [this]
  rw [h1, h2, List.map_id, List.map_id]

theorem upsert_unique_step (m : Model) (st : Store) (d : Data) (keys : List String)
    (hm : m.uniques = [keys])
    (hnd : (d.map Prod.fst).Nodup)
    (hnn : ∀ k ∈ keys, (d.lookup k).getD Value.null ≠ Value.null)
    (hreq : ∀ k ∈ m.required, (d.lookup k).getD Value.null ≠ Value.null)
    (hwf : wfStore st)
    (hcount : st.rows.countP (fun r => matchesKeys r (keyVals d keys)) ≤ 1) :
    ∃ rec st', upsert m st d keys = .ok (rec, st')
      ∧ st'.rows.countP (fun r => matchesKeys r (keyVals d keys)) = 1
      ∧ st'.rows.filter (fun r => matchesKeys r (keyVals d keys)) = [rec]
      ∧ (∀ k v, (k, v) ∈ d → getField rec k = v)
      ∧ wfStore st' := by
  have hkeys : ∀ k ∈ keys, (d.lookup k).isSome := by
    intro k hk
    cases h : d.lookup k with
    | none => exact absurd (by rw [h]; rfl : (d.lookup k).getD Value.null = Value.null) (hnn k hk)
    | some v => rfl
  by_cases hc : st.rows.any (fun r0 => rowConflicts m r0 (mkRec st.nextId d))
  · -- flush raises IntegrityError: fall back to update
    have hflush : flushFails m st (mkRec st.nextId d) = true := by
      unfold flushFails
      rw [hc, Bool.or_true]
    obtain ⟨r0, hr0mem, hr0c⟩ := List.any_eq_true.mp hc
    have hr0m : matchesKeys r0 (keyVals d keys) = true := by
      rw [← rowConflicts_eq_matches m keys d r0 st.nextId hm hnd hnn]
      exact hr0c
    have hsome : (findByKeys st (keyVals d keys)).isSome := by
      unfold findByKeys
      exact List.find?_isSome.mpr ⟨r0, hr0mem, hr0m⟩
    obtain ⟨r, hr⟩ := Option.isSome_iff_exists.mp hsome
    have hr' : List.find? (fun x => matchesKeys x (keyVals d keys)) st.rows = some r := hr
    have hrm0 := List.find?_some hr'
    have hrm : matchesKeys r (keyVals d keys) = true := hrm0
    have hup := upsert_conflict_found m st d keys r hkeys hflush hr
    obtain ⟨l1, l2, hsplit, hl1⟩ := find?_decomp _ st.rows r hr'
    have hrepl : st.rows.map (fun x => if x.rid = r.rid then setFields r d else x)
        = l1 ++ setFields r d :: l2 := by
      rw [hsplit]
      exact map_replace_eq l1 l2 r (setFields r d) (hsplit ▸ hwf.1)
    have hcl1 : l1.countP (fun x => matchesKeys x (keyVals d keys)) = 0 :=
      List.countP_eq_zero.mpr fun x hx => by rw [hl1 x hx]; exact Bool.false_ne_true
    have hcst : st.rows.countP (fun x => matchesKeys x (keyVals d keys))
        = 1 + l2.countP (fun x => matchesKeys x (keyVals d keys)) := by
      rw [hsplit, List.countP_append, List.countP_cons, hcl1, if_pos hrm]
      omega
    have hcl2 : l2.countP (fun x => matchesKeys x (keyVals d keys)) = 0 := by omega
    have hsm : matchesKeys (setFields r d) (keyVals d keys) = true :=
      matchesKeys_setFields r d keys hnd hkeys
    refine ⟨setFields r d,
      ⟨st.rows.map fun x => if x.rid = r.rid then setFields r d else x, st.nextId⟩,
      hup, ?_, ?_, fun k v hv => getField_setFields_mem r d hnd k v hv, ?_⟩
    · rw [hrepl, List.countP_append, List.countP_cons, hcl1, hcl2, if_pos hsm]
    · rw [hrepl, List.filter_append, List.filter_cons, if_pos hsm,
        List.filter_eq_nil_iff.mpr fun x hx => by rw [hl1 x hx]; exact Bool.false_ne_true,
        List.filter_eq_nil_iff.mpr fun x hx => by
          have := List.countP_eq_zero.mp hcl2 x hx
          simpa using this]
      rfl
    · constructor
      · have : (l1 ++ setFields r d :: l2).map Rec.rid = (l1 ++ r :: l2).map Rec.rid := by
          rw [List.map_append, List.map_cons, List.map_append, List.map_cons,
            setFields_rid]
        rw [hrepl]
        show ((l1 ++ setFields r d :: l2).map Rec.rid).Nodup
        rw [this]
        exact hsplit ▸ hwf.1
      · intro x hx
        rw [hrepl] at hx
        rcases List.mem_append.mp hx with hx1 | hx2
        · exact hwf.2 x (hsplit ▸ List.mem_append.mpr (Or.inl hx1))
        · rcases List.mem_cons.mp hx2 with rfl | hx3
          · show (setFields r d).rid < st.nextId
            rw [setFields_rid]
            exact hwf.2 r (hsplit ▸ List.mem_append.mpr (Or.inr (List.mem_cons_self r l2)))
          · exact hwf.2 x (hsplit ▸ List.mem_append.mpr (Or.inr (List.mem_cons_of_mem r hx3)))
  · -- flush succeeds: plain insert
    have hnoc : ∀ r0 ∈ st.rows, rowConflicts m r0 (mkRec st.nextId d) = false := by
      intro r0 hr0
      by_contra hne
      exact hc (List.any_eq_true.mpr ⟨r0, hr0, Bool.of_not_eq_false hne⟩)
    have hflush : flushFails m st (mkRec st.nextId d) = false := by
      unfold flushFails
      rw [notNullOk_mkRec m d hnd st.nextId hreq]
      simp only [Bool.not_true, Bool.false_or]
      exact Bool.eq_false_iff.mpr fun habs => by
        obtain ⟨r0, hr0, hr0c⟩ := List.any_eq_true.mp habs
        rw [hnoc r0 hr0] at hr0c
        exact Bool.false_ne_true hr0c
    have hup := upsert_flush_ok m st d keys hkeys hflush
    have hcst0 : st.rows.countP (fun x => matchesKeys x (keyVals d keys)) = 0 := by
      refine List.countP_eq_zero.mpr fun x hx => ?_
      rw [← rowConflicts_eq_matches m keys d x st.nextId hm hnd hnn, hnoc x hx]
      exact Bool.false_ne_true
    have hnewm : matchesKeys (mkRec st.nextId d) (keyVals d keys) = true :=
      matchesKeys_mkRec d keys hnd st.nextId
    refine ⟨mkRec st.nextId d, ⟨st.rows ++ [mkRec st.nextId d], st.nextId + 1⟩, hup, ?_, ?_,
      fun k v hv => getField_mkRec_mem d hnd st.nextId k v hv, ?_⟩
    · rw [List.countP_append, hcst0, List.countP_cons, if_pos hnewm]
      rfl
    · rw [List.filter_append,
        List.filter_eq_nil_iff.mpr fun x hx => by
          have := List.countP_eq_zero.mp hcst0 x hx
          simpa using this,
        List.filter_cons, if_pos hnewm]
      rfl
    · constructor
      · rw [List.map_append, List.map_cons, List.map_nil]
        have hfresh : st.nextId ∉ st.rows.map Rec.rid := by
          intro hmem
          obtain ⟨x, hx, hxe⟩ := List.mem_map.mp hmem
          exact Nat.lt_irrefl st.nextId (hxe ▸ hwf.2 x hx)
        have : (st.rows.map Rec.rid ++ [st.nextId]).Nodup := by
          rw [List.nodup_append]
          exact ⟨hwf.1, List.nodup_singleton _, by
            intro a ha
            simp only [List.mem_singleton]
            intro hb
            exact hfresh (hb ▸ ha)⟩
        simpa using this
      · intro x hx
        rcases List.mem_append.mp hx with hx1 | hx2
        · exact Nat.lt_trans (hwf.2 x hx1) (Nat.lt_succ_self _)
        · rcases List.mem_cons.mp hx2 with rfl | hx3
          · exact Nat.lt_succ_self _
          · cases hx3

/-- **C2.** Last-write-wins: for a model whose unique constraint is the
natural key, upserting payload `d1` and then payload `d2` agreeing with it
on the (non-null) natural-key fields leaves exactly one resident record for
that natural key — no duplicate — and that record's fields equal those
provided in `d2`, which is also the record the second upsert returns. -/
theorem C2_upsert_last_write_wins (m : Model) (st : Store) (keys : List String)
    (d1 d2 : Data)
    (hm : m.uniques = [keys])
    (hnd1 : (d1.map Prod.fst).Nodup) (hnd2 : (d2.map Prod.fst).Nodup)
    (hnn : ∀ k ∈ keys, (d1.lookup k).getD Value.null ≠ Value.null)
    (hagree : ∀ k ∈ keys, d2.lookup k = d1.lookup k)
    (hreq1 : ∀ k ∈ m.required, (d1.lookup k).getD Value.null ≠ Value.null)
    (hreq2 : ∀ k ∈ m.required, (d2.lookup k).getD Value.null ≠ Value.null)
    (hwf : wfStore st)
    (hcount : st.rows.countP (fun r => matchesKeys r (keyVals d1 keys)) ≤ 1) :
    ∃ r1 st1 r2 st2,
      upsert m st d1 keys = .ok (r1, st1)
      ∧ upsert m st1 d2 keys = .ok (r2, st2)
      ∧ st2.rows.countP (fun r => matchesKeys r (keyVals d1 keys)) = 1
      ∧ st2.rows.filter (fun r => matchesKeys r (keyVals d1 keys)) = [r2]
      ∧ (∀ k v, (k, v) ∈ d2 → getField r2 k = v) := by
  have hkv : keyVals d2 keys = keyVals d1 keys :=
    List.map_congr_left fun k hk => by rw [hagree k hk]
  obtain ⟨r1, st1, h1, hc1, hf1, hv1, hwf1⟩ :=
    upsert_unique_step m st d1 keys hm hnd1 hnn hreq1 hwf hcount
  have hnn2 : ∀ k ∈ keys, (d2.lookup k).getD Value.null ≠ Value.null := fun k hk => by
    rw [hagree k hk]
    exact hnn k hk
  obtain ⟨r2, st2, h2, hc2, hf2, hv2, hwf2⟩ :=
    upsert_unique_step m st1 d2 keys hm hnd2 hnn2 hreq2 hwf1 (by rw [hkv, hc1])
  rw [hkv] at hc2 hf2
  exact ⟨r1, st1, r2, st2, h1, h2, hc2, hf2, hv2⟩

theorem C2_upsert_last_write_wins_witness :
    (insiderModel.uniques = [["name"]]
      ∧ ((([("name", Value.str "bob"), ("relation", Value.str "ceo")] : Data).map Prod.fst).Nodup)
      ∧ ((([("name", Value.str "bob"), ("relation", Value.str "cfo")] : Data).map Prod.fst).Nodup)
      ∧ (∀ k ∈ ["name"],
          (([("name", Value.str "bob"), ("relation", Value.str "ceo")] : Data).lookup k).getD
            Value.null ≠ Value.null)
      ∧ (∀ k ∈ ["name"],
          ([("name", Value.str "bob"), ("relation", Value.str "cfo")] : Data).lookup k
            = ([("name", Value.str "bob"), ("relation", Value.str "ceo")] : Data).lookup k)
      ∧ (∀ k ∈ insiderModel.required,
          (([("name", Value.str "bob"), ("relation", Value.str "ceo")] : Data).lookup k).getD
            Value.null ≠ Value.null)
      ∧ (∀ k ∈ insiderModel.required,
          (([("name", Value.str "bob"), ("relation", Value.str "cfo")] : Data).lookup k).getD
            Value.null ≠ Value.null)
      ∧ wfStore ⟨[], 0⟩
      ∧ (⟨[], 0⟩ : Store).rows.countP
          (fun r => matchesKeys r
            (keyVals [("name", Value.str "bob"), ("relation", Value.str "ceo")] ["name"])) ≤ 1)
    ∧ (∃ r1 st1 r2 st2,
        upsert insiderModel ⟨[], 0⟩
            [("name", Value.str "bob"), ("relation", Value.str "ceo")] ["name"] = .ok (r1, st1)
        ∧ upsert insiderModel st1
            [("name", Value.str "bob"), ("relation", Value.str "cfo")] ["name"] = .ok (r2, st2)
        ∧ st2.rows.countP
            (fun r => matchesKeys r
              (keyVals [("name", Value.str "bob"), ("relation", Value.str "ceo")] ["name"])) = 1
        ∧ st2.rows.filter
            (fun r => matchesKeys r
              (keyVals [("name", Value.str "bob"), ("relation", Value.str "ceo")] ["name"]))
            = [r2]
        ∧ (∀ k v, (k, v) ∈ ([("name", Value.str "bob"), ("relation", Value.str "cfo")] : Data) →
            getField r2 k = v)) :=
  ⟨⟨by decide, by decide, by decide, by decide, by decide, by decide, by decide, by decide,
    by decide⟩,
   C2_upsert_last_write_wins insiderModel ⟨[], 0⟩ ["name"]
     [("name", Value.str "bob"), ("relation", Value.str "ceo")]
     [("name", Value.str "bob"), ("relation", Value.str "cfo")]
     (by decide) (by decide) (by decide) (by decide) (by decide) (by decide) (by decide)
     (by decide) (by decide)⟩

/-- **C10.** In `upsert`'s conflict-recovery branch the result of the
natural-key lookup is dereferenced without a presence check: once the flush
has raised an integrity error, the fallback returns a resident record
exactly when a committed record matching the natural-key fields is visible;
whenever no such record is visible (the integrity error came from another
constraint, or the racing insert is not yet committed), the field-overwrite
step fails on the missing record (`AttributeError` on `None`) instead of
returning a resident record. -/
theorem C10_upsert_none_deref (m : Model) (st : Store) (data : Data)
    (keys : List String)
    (hkeys : ∀ k ∈ keys, (data.lookup k).isSome)
    (hflush : flushFails m st (mkRec st.nextId data) = true) :
    (findByKeys st (keys.map fun k => (k, (data.lookup k).getD Value.null)) = none →
      upsert m st data keys = .error .noneSetattr)
    ∧ (∀ r, findByKeys st (keys.map fun k => (k, (data.lookup k).getD Value.null)) = some r →
      upsert m st data keys
        = .ok (setFields r data,
            ⟨st.rows.map fun x => if x.rid = r.rid then setFields r data else x,
             st.nextId⟩)) := by
  constructor
  · intro hfind
    exact upsert_conflict_missing m st data keys hkeys hflush hfind
  · intro r hfind
    exact upsert_conflict_found m st data keys r hkeys hflush hfind

theorem C10_upsert_none_deref_witness :
    ((∀ k ∈ ["a"], ((([("a", Value.str "z"), ("b", Value.str "y")] : Data).lookup k).isSome))
      ∧ flushFails ⟨[["a"], ["b"]], []⟩ ⟨[⟨0, [("a", Value.str "x"), ("b", Value.str "y")]⟩], 1⟩
          (mkRec 1 [("a", Value.str "z"), ("b", Value.str "y")]) = true
      ∧ findByKeys ⟨[⟨0, [("a", Value.str "x"), ("b", Value.str "y")]⟩], 1⟩
          (["a"].map fun k =>
            (k, (([("a", Value.str "z"), ("b", Value.str "y")] : Data).lookup k).getD Value.null))
          = none)
    ∧ upsert ⟨[["a"], ["b"]], []⟩ ⟨[⟨0, [("a", Value.str "x"), ("b", Value.str "y")]⟩], 1⟩
        [("a", Value.str "z"), ("b", Value.str "y")] ["a"] = .error .noneSetattr :=
  ⟨⟨by decide, by decide, by decide⟩,
   (C10_upsert_none_deref ⟨[["a"], ["b"]], []⟩ ⟨[⟨0, [("a", Value.str "x"), ("b", Value.str "y")]⟩], 1⟩
      [("a", Value.str "z"), ("b", Value.str "y")] ["a"] (by decide) (by decide)).1 (by decide)⟩

/-! ## Parser theorems -/

theorem convHistoryRow_length {F D : Type} (toF : String → Option F) (toD : String → Option D)
    (row : List String) (h : convHistoryRow toF toD row ≠ none) : row.length = 6 := by
  match row with
  | [c0, c1, c2, c3, c4, c5] => rfl
  | [] => exact absurd rfl h
  | [a] => exact absurd rfl h
  | [a, b] => exact absurd rfl h
  | [a, b, c] => exact absurd rfl h
  | [a, b, c, d] => exact absurd rfl h
  | [a, b, c, d, e] => exact absurd rfl h
  | a :: b :: c :: d :: e :: f :: g :: rest => exact absurd rfl h

theorem convHistoryRow_fail {F D : Type} (toF : String → Option F) (toD : String → Option D)
    (c0 c1 c2 c3 c4 c5 : String)
    (h : toD c0 = none ∨ toF (stripCommas c1) = none ∨ toF (stripCommas c2) = none
      ∨ toF (stripCommas c3) = none ∨ toF (stripCommas c4) = none
      ∨ toF (stripCommas c5) = none) :
    convHistoryRow toF toD [c0, c1, c2, c3, c4, c5] = none := by
  simp only [convHistoryRow]
  split
  · rcases h with h | h | h | h | h | h <;> simp_all
  · rfl

/-- **C5.** History-row policy of `parse_history`: a row with exactly 6
cells whose cells all convert yields a record whose numeric fields are the
cell text with commas stripped and converted, and whose date is the parsed
first cell, and that record appears in the result; a row with any other
cell count, or with a failing conversion, contributes nothing (the
surrounding rows are still processed, and no error is raised — the
function stays total). -/
theorem C5_parse_history_row_policy {F D : Type} (toF : String → Option F)
    (toD : String → Option D) :
    (∀ c0 c1 c2 c3 c4 c5 d o hi lo cl v,
      toD c0 = some d → toF (stripCommas c1) = some o → toF (stripCommas c2) = some hi →
      toF (stripCommas c3) = some lo → toF (stripCommas c4) = some cl →
      toF (stripCommas c5) = some v →
      convHistoryRow toF toD [c0, c1, c2, c3, c4, c5] = some ⟨d, o, hi, lo, cl, v⟩
      ∧ ∀ table, [c0, c1, c2, c3, c4, c5] ∈ table →
          (⟨d, o, hi, lo, cl, v⟩ : HistItem F D) ∈ parse_history toF toD table)
    ∧ (∀ row : List String, row.length ≠ 6 → convHistoryRow toF toD row = none)
    ∧ (∀ c0 c1 c2 c3 c4 c5,
        (toD c0 = none ∨ toF (stripCommas c1) = none ∨ toF (stripCommas c2) = none
          ∨ toF (stripCommas c3) = none ∨ toF (stripCommas c4) = none
          ∨ toF (stripCommas c5) = none) →
        convHistoryRow toF toD [c0, c1, c2, c3, c4, c5] = none)
    ∧ (∀ (pre : List (List String)) (row : List String) (post : List (List String)),
        convHistoryRow toF toD row = none →
        parse_history toF toD (pre ++ row :: post) = parse_history toF toD (pre ++ post)) := by
  refine ⟨?_, ?_, convHistoryRow_fail toF toD, ?_⟩
  · intro c0 c1 c2 c3 c4 c5 d o hi lo cl v h0 h1 h2 h3 h4 h5
    have hconv : convHistoryRow toF toD [c0, c1, c2, c3, c4, c5]
        = some ⟨d, o, hi, lo, cl, v⟩ := by
      simp [convHistoryRow, h0, h1, h2, h3, h4, h5]
    exact ⟨hconv, fun table hmem => List.mem_filterMap.mpr ⟨_, hmem, hconv⟩⟩
  · intro row h
    cases hc : convHistoryRow toF toD row with
    | none => rfl
    | some x => exact absurd (convHistoryRow_length toF toD row (by rw [hc]; exact fun h2 => Option.noConfusion h2)) h
  · intro pre row post h
    unfold parse_history
    rw [List.filterMap_append, List.filterMap_append, List.filterMap_cons_none h]

theorem C5_parse_history_row_policy_witness :
    (pyInt "1" = some 1
      ∧ pyInt (stripCommas "1,000") = some 1000
      ∧ pyInt (stripCommas "2") = some 2
      ∧ pyInt (stripCommas "3") = some 3
      ∧ pyInt (stripCommas "4") = some 4
      ∧ pyInt (stripCommas "56,789") = some 56789)
    ∧ (convHistoryRow pyInt pyInt
          ["1", "1,000", "2", "3", "4", "56,789"] = some ⟨1, 1000, 2, 3, 4, 56789⟩
      ∧ ∀ table, ["1", "1,000", "2", "3", "4", "56,789"] ∈ table →
          (⟨1, 1000, 2, 3, 4, 56789⟩ : HistItem Int Int)
            ∈ parse_history pyInt pyInt table) :=
  ⟨⟨by decide, by decide, by decide, by decide, by decide, by decide⟩,
   (C5_parse_history_row_policy pyInt pyInt).1
     "1" "1,000" "2" "3" "4" "56,789" 1 1000 2 3 4 56789
     (by decide) (by decide) (by decide) (by decide) (by decide) (by decide)⟩

/-- **C6** counterexample: the claim says an absent last-page link or an
unparseable page number makes `parse_trades_page_count` return 1; on the
code, an absent link raises `ParsingError` and a non-numeric page value
raises `ValueError` — neither returns 1. -/
theorem C6_page_count_counterexample :
    parse_trades_page_count ⟨none, none⟩ = .error .parsingError
    ∧ parse_trades_page_count ⟨none, none⟩ ≠ .ok 1
    ∧ parse_trades_page_count ⟨some ⟨some "x?page=abc"⟩, none⟩ = .error .valueError
    ∧ parse_trades_page_count ⟨some ⟨some "x?page=abc"⟩, none⟩ ≠ .ok 1 := by
  decide

/-- **C6** (amended). `parse_trades_page_count` locates the "last page"
navigation link, raising `ParsingError` when it is absent; when present,
the page number is parsed from the link's href query string: a missing
href or a missing/blank `page` parameter defaults to 1, a parseable page
value n yields n, and an unparseable page value raises `ValueError`. -/
theorem C6_page_count_behaviour :
    (∀ dom : TradesDom, dom.lastPageTag = none →
      parse_trades_page_count dom = .error .parsingError)
    ∧ (∀ (dom : TradesDom) (tag : TagData), dom.lastPageTag = some tag →
        (parseQs (urlQuery (tag.href.getD ""))).lookup "page" = none →
        parse_trades_page_count dom = .ok 1)
    ∧ (∀ (dom : TradesDom) (tag : TagData) (s : String) (n : Int),
        dom.lastPageTag = some tag →
        (parseQs (urlQuery (tag.href.getD ""))).lookup "page" = some s →
        pyInt s = some n →
        parse_trades_page_count dom = .ok n)
    ∧ (∀ (dom : TradesDom) (tag : TagData) (s : String), dom.lastPageTag = some tag →
        (parseQs (urlQuery (tag.href.getD ""))).lookup "page" = some s →
        pyInt s = none →
        parse_trades_page_count dom = .error .valueError) := by
  refine ⟨?_, ?_, ?_, ?_⟩
  · intro dom h
    unfold parse_trades_page_count
    rw [h]
  · intro dom tag h hq
    unfold parse_trades_page_count
    rw [h]
    simp only [hq, Option.getD_none]
    decide
  · intro dom tag s n h hq hn
    unfold parse_trades_page_count
    rw [h]
    simp only [hq, Option.getD_some]
    simp [hn]
  · intro dom tag s h hq hn
    unfold parse_trades_page_count
    rw [h]
    simp only [hq, Option.getD_some]
    simp [hn]

theorem C6_page_count_behaviour_witness :
    ((⟨some ⟨some "/symbol/aapl/insider-trades?page=7"⟩, none⟩ : TradesDom).lastPageTag
        = some ⟨some "/symbol/aapl/insider-trades?page=7"⟩
      ∧ (parseQs (urlQuery ((⟨some "/symbol/aapl/insider-trades?page=7"⟩ :
            TagData).href.getD ""))).lookup "page" = some "7"
      ∧ pyInt "7" = some 7)
    ∧ parse_trades_page_count ⟨some ⟨some "/symbol/aapl/insider-trades?page=7"⟩, none⟩
        = .ok 7 :=
  ⟨⟨rfl, by decide, by decide⟩,
   C6_page_count_behaviour.2.2.1 ⟨some ⟨some "/symbol/aapl/insider-trades?page=7"⟩, none⟩
     ⟨some "/symbol/aapl/insider-trades?page=7"⟩ "7" 7 rfl (by decide) (by decide)⟩

/-! ## Trades-task theorems -/

theorem upsert_conflict_succeeds (m : Model) (st : Store) (d : Data) (keys : List String)
    (hkeys : ∀ k ∈ keys, (d.lookup k).isSome)
    (hflush : flushFails m st (mkRec st.nextId d) = true)
    (hmatch : ∃ r0 ∈ st.rows, matchesKeys r0 (keyVals d keys) = true) :
    ∃ rec st', upsert m st d keys = .ok (rec, st') := by
  obtain ⟨r0, hr0, hm0⟩ := hmatch
  have hsome : (findByKeys st (keyVals d keys)).isSome := by
    unfold findByKeys
    exact List.find?_isSome.mpr ⟨r0, hr0, hm0⟩
  obtain ⟨r, hr⟩ := Option.isSome_iff_exists.mp hsome
  exact ⟨_, _, upsert_conflict_found m st d keys r hkeys hflush hr⟩

theorem upsert_stock_ok (st : Store) (t : String) :
    ∃ rec st', upsert stockModel st [("ticker", Value.str t)] ["ticker"] = .ok (rec, st') := by
  have hnd : ((([("ticker", Value.str t)] : Data)).map Prod.fst).Nodup := by simp
  have hkeys : ∀ k ∈ ["ticker"], (([("ticker", Value.str t)] : Data).lookup k).isSome := by
    intro k hk
    rw [List.mem_singleton] at hk
    subst hk
    rfl
  have hnn : ∀ k ∈ ["ticker"],
      (([("ticker", Value.str t)] : Data).lookup k).getD Value.null ≠ Value.null := by
    intro k hk
    rw [List.mem_singleton] at hk
    subst hk
    intro habs
    exact Value.noConfusion habs
  cases hflush : flushFails stockModel st (mkRec st.nextId [("ticker", Value.str t)]) with
  | false => exact ⟨_, _, upsert_flush_ok _ _ _ _ hkeys hflush⟩
  | true =>
      refine upsert_conflict_succeeds _ _ _ _ hkeys hflush ?_
      have hnotnull : notNullOk stockModel (mkRec st.nextId [("ticker", Value.str t)])
          = true :=
        notNullOk_mkRec stockModel _ hnd st.nextId hnn
      unfold flushFails at hflush
      rw [hnotnull] at hflush
      simp only [Bool.not_true, Bool.false_or] at hflush
      obtain ⟨r0, hr0, hc⟩ := List.any_eq_true.mp hflush
      refine ⟨r0, hr0, ?_⟩
      rw [← rowConflicts_eq_matches stockModel ["ticker"] _ r0 st.nextId rfl hnd hnn]
      exact hc

theorem fetch_trades_nil (db : DB) (ticker : String) (page : Nat) :
    ∃ sid stocks2, fetch_trades db ticker page [] = .ok
      ({ db with stocks := stocks2 },
       toString (0 : Nat) ++ " trade items for " ++ squote ++ ticker ++ squote
         ++ " has been collected (page: " ++ toString page ++ ")",
       [Ev.upsertStock [("ticker", Value.str ticker)] sid]) := by
  obtain ⟨rec, st', hup⟩ := upsert_stock_ok db.stocks ticker
  refine ⟨rec.rid, st', ?_⟩
  unfold fetch_trades
  simp [hup, tradesLoop, Bind.bind, Except.bind]

/-- **C7.** Requesting a trades page strictly beyond the page count
discovered from the fetched page makes `parse_trades` return an empty
sequence rather than raise, and the enclosing trade-page task then reports
a successful outcome with zero rows (only the `Stock` upsert happens; no
trade row is touched). -/
theorem C7_beyond_last_page {F D : Type} (toF : String → Option F) (toD : String → Option D)
    (dom : TradesDom) (page : Nat) (pc : Int) (db : DB) (ticker : String)
    (hpc : parse_trades_page_count dom = .ok pc)
    (hgt : pc < (page : Int)) :
    parse_trades toF toD dom page = .ok []
    ∧ ∃ sid stocks2, fetch_trades db ticker page [] = .ok
        ({ db with stocks := stocks2 },
         toString (0 : Nat) ++ " trade items for " ++ squote ++ ticker ++ squote
           ++ " has been collected (page: " ++ toString page ++ ")",
         [Ev.upsertStock [("ticker", Value.str ticker)] sid]) := by
  constructor
  · unfold parse_trades
    rw [hpc]
    simp [Bind.bind, Except.bind, not_le.mpr hgt]
  · exact fetch_trades_nil db ticker page

theorem C7_beyond_last_page_witness :
    (parse_trades_page_count ⟨some ⟨some "x?page=2"⟩, none⟩ = .ok 2
      ∧ (2 : Int) < ((3 : Nat) : Int))
    ∧ ((parse_trades pyInt pyInt ⟨some ⟨some "x?page=2"⟩, none⟩ 3
          : Except FetchError (List (TradeItem Int Int))) = .ok []
      ∧ ∃ sid stocks2, fetch_trades ⟨⟨[], 0⟩, ⟨[], 0⟩, ⟨[], 0⟩, ⟨[], 0⟩⟩ "AAPL" 3 [] = .ok
          ({ (⟨⟨[], 0⟩, ⟨[], 0⟩, ⟨[], 0⟩, ⟨[], 0⟩⟩ : DB) with stocks := stocks2 },
           toString (0 : Nat) ++ " trade items for " ++ squote ++ "AAPL" ++ squote
             ++ " has been collected (page: " ++ toString (3 : Nat) ++ ")",
           [Ev.upsertStock [("ticker", Value.str "AAPL")] sid])) :=
  ⟨⟨by decide, by decide⟩,
   C7_beyond_last_page pyInt pyInt ⟨some ⟨some "x?page=2"⟩, none⟩ 3 2
     ⟨⟨[], 0⟩, ⟨[], 0⟩, ⟨[], 0⟩, ⟨[], 0⟩⟩ "AAPL" (by decide) (by decide)⟩

/-- **C8.** An 8-cell trade row whose last-price cell is the empty string
and whose other cells convert yields a record with `last_price` absent
(`none` — not zero and not a failure), and the row is included in the
parse result. -/
theorem C8_empty_last_price {F D : Type} (toF : String → Option F) (toD : String → Option D)
    (c0 c1 c2 c3 c4 c5 c7 : String) (d : D) (tr hold : F)
    (h2 : toD c2 = some d) (h5 : toF (stripCommas c5) = some tr)
    (h7 : toF (stripCommas c7) = some hold) :
    convTradeRow toF toD [c0, c1, c2, c3, c4, c5, "", c7]
      = some ⟨c0, c1, d, c3, c4, tr, none, hold⟩
    ∧ ∀ (dom : TradesDom) (tbl : List (List String)) (page : Nat) (pc : Int),
        parse_trades_page_count dom = .ok pc → (page : Int) ≤ pc →
        dom.genTableDiv = some ⟨some tbl⟩ → [c0, c1, c2, c3, c4, c5, "", c7] ∈ tbl →
        ∃ items, parse_trades toF toD dom page = .ok items
          ∧ (⟨c0, c1, d, c3, c4, tr, none, hold⟩ : TradeItem F D) ∈ items := by
  have hconv : convTradeRow toF toD [c0, c1, c2, c3, c4, c5, "", c7]
      = some ⟨c0, c1, d, c3, c4, tr, none, hold⟩ := by
    simp [convTradeRow, convLastPrice, h2, h5, h7]
  refine ⟨hconv, ?_⟩
  intro dom tbl page pc hpc hle hdiv hmem
  unfold parse_trades
  rw [hpc]
  simp only [Bind.bind, Except.bind]
  rw [if_pos hle, hdiv]
  exact ⟨_, rfl, List.mem_filterMap.mpr ⟨_, hmem, hconv⟩⟩

theorem C8_empty_last_price_witness :
    (pyInt "3" = some 3 ∧ pyInt (stripCommas "1,000") = some 1000
      ∧ pyInt (stripCommas "2,5") = some 25)
    ∧ (convTradeRow pyInt pyInt ["ins", "rel", "3", "buy", "direct", "1,000", "", "2,5"]
        = some ⟨"ins", "rel", 3, "buy", "direct", 1000, none, 25⟩
      ∧ ∀ (dom : TradesDom) (tbl : List (List String)) (page : Nat) (pc : Int),
          parse_trades_page_count dom = .ok pc → (page : Int) ≤ pc →
          dom.genTableDiv = some ⟨some tbl⟩ →
          ["ins", "rel", "3", "buy", "direct", "1,000", "", "2,5"] ∈ tbl →
          ∃ items, parse_trades pyInt pyInt dom page = .ok items
            ∧ (⟨"ins", "rel", 3, "buy", "direct", 1000, none, 25⟩ : TradeItem Int Int)
                ∈ items) :=
  ⟨⟨by decide, by decide, by decide⟩,
   C8_empty_last_price pyInt pyInt "ins" "rel" "3" "buy" "direct" "1,000" "2,5" 3 1000 25
     (by decide) (by decide) (by decide)⟩

/-! ## Event-order theorems for the task bodies -/

theorem mem_of_getElem_opt {α : Type} {l : List α} {n : Nat} {a : α}
    (h : l[n]? = some a) : a ∈ l := by
  obtain ⟨hn, he⟩ := List.getElem?_eq_some.mp h
  exact he ▸ List.getElem_mem hn

theorem tradesLoop_cons_ok (db : DB) (sid : Nat) (tr : Data) (rest : List Data)
    (db' : DB) (evs : List Ev) (h : tradesLoop db sid (tr :: rest) = .ok (db', evs)) :
    ∃ vi vr insider is' db2 evs' trData,
      tr.lookup "insider" = some vi
      ∧ tr.lookup "relation" = some vr
      ∧ trData = ("stock_id", Value.num sid) :: ("insider_id", Value.num insider.rid) :: removeEntry (removeEntry tr "insider") "relation"
      ∧ upsert insiderModel db.insiders [("name", vi), ("relation", vr)] ["name"]
          = .ok (insider, is')
      ∧ tradesLoop { db with insiders := is', trades := (addRow db.trades trData).2 } sid rest
          = .ok (db2, evs')
      ∧ db' = db2
      ∧ evs = Ev.upsertInsider [("name", vi), ("relation", vr)] insider.rid
          :: Ev.addTrade trData :: Ev.commitEv :: evs' := by
  simp only [tradesLoop] at h
  cases hins : tr.lookup "insider" with
  | none =>
      rw [hins] at h
      exact Except.noConfusion h
  | some vi =>
      rw [hins] at h
      cases hrel : tr.lookup "relation" with
      | none =>
          rw [hrel] at h
          exact Except.noConfusion h
      | some vr =>
          simp only [hrel] at h
          cases hup : upsert insiderModel db.insiders [("name", vi), ("relation", vr)] ["name"] with
          | error e =>
              rw [hup] at h
              simp [Bind.bind, Except.bind] at h
          | ok p =>
              obtain ⟨insider, is'⟩ := p
              rw [hup] at h
              simp only [Bind.bind, Except.bind] at h
              cases hloop : tradesLoop { db with insiders := is', trades := (addRow db.trades (("stock_id", Value.num sid) :: ("insider_id", Value.num insider.rid) :: removeEntry (removeEntry tr "insider") "relation")).2 } sid rest with
              | error e =>
                  rw [hloop] at h
                  simp at h
              | ok q =>
                  obtain ⟨db2, evs'⟩ := q
                  rw [hloop] at h
                  simp only [Except.ok.injEq, Prod.mk.injEq] at h
                  exact ⟨vi, vr, insider, is', db2, evs', _, rfl, rfl, rfl, hup, hloop,
                    h.1.symm, h.2.symm⟩

theorem tradesLoop_events (sid : Nat) (trades : List Data) :
    ∀ (db db' : DB) (evs : List Ev),
      tradesLoop db sid trades = .ok (db', evs) →
      ∀ i, i < trades.length →
        ∃ insData iid trData,
          evs[3 * i]? = some (Ev.upsertInsider insData iid)
          ∧ evs[3 * i + 1]? = some (Ev.addTrade trData)
          ∧ trData.lookup "insider_id" = some (Value.num iid) := by
  induction trades with
  | nil =>
      intro db db' evs h i hi
      simp at hi
  | cons tr rest ih =>
      intro db db' evs h i hi
      obtain ⟨vi, vr, insider, is', db2, evs', trData, _, _, htr, _, hloop, _, hevs⟩ :=
        tradesLoop_cons_ok db sid tr rest db' evs h
      cases i with
      | zero =>
          refine ⟨[("name", vi), ("relation", vr)], insider.rid, trData, ?_, ?_, ?_⟩
          · rw [hevs]
            simp
          · rw [hevs]
            simp
          · rw [htr]
            rfl
      | succ i' =>
          have hi' : i' < rest.length := by
            simp only [List.length_cons] at hi
            omega
          obtain ⟨insData, iid, trData2, h1, h2, h3⟩ := ih _ db2 evs' hloop i' hi'
          refine ⟨insData, iid, trData2, ?_, ?_, h3⟩
          · rw [hevs, show 3 * (i' + 1) = 3 * i' + 1 + 1 + 1 by omega,
              List.getElem?_cons_succ, List.getElem?_cons_succ, List.getElem?_cons_succ]
            exact h1
          · rw [hevs, show 3 * (i' + 1) + 1 = 3 * i' + 1 + 1 + 1 + 1 by omega,
              List.getElem?_cons_succ, List.getElem?_cons_succ, List.getElem?_cons_succ]
            exact h2

theorem historyLoop_cons_ok (db : DB) (sid : Nat) (item : Data) (rest : List Data)
    (db' : DB) (evs : List Ev) (h : historyLoop db sid (item :: rest) = .ok (db', evs)) :
    ∃ q qs db2 evs',
      upsert quoteModel db.quotes (setEntry item "stock_id" (Value.num sid))
          ["date", "stock_id"] = .ok (q, qs)
      ∧ historyLoop { db with quotes := qs } sid rest = .ok (db2, evs')
      ∧ db' = db2
      ∧ evs = Ev.upsertQuote (setEntry item "stock_id" (Value.num sid)) :: evs' := by
  simp only [historyLoop] at h
  cases hup : upsert quoteModel db.quotes (setEntry item "stock_id" (Value.num sid))
      ["date", "stock_id"] with
  | error e =>
      rw [hup] at h
      simp [Bind.bind, Except.bind] at h
  | ok p =>
      obtain ⟨q, qs⟩ := p
      rw [hup] at h
      simp only [Bind.bind, Except.bind] at h
      cases hloop : historyLoop { db with quotes := qs } sid rest with
      | error e =>
          rw [hloop] at h
          simp at h
      | ok p2 =>
          obtain ⟨db2, evs'⟩ := p2
          rw [hloop] at h
          simp only [Except.ok.injEq, Prod.mk.injEq] at h
          exact ⟨q, qs, db2, evs', rfl, hloop, h.1.symm, h.2.symm⟩

theorem historyLoop_events (sid : Nat) (items : List Data) :
    ∀ (db db' : DB) (evs : List Ev),
      historyLoop db sid items = .ok (db', evs) →
      ∀ e ∈ evs, ∃ dd, e = Ev.upsertQuote dd
        ∧ dd.lookup "stock_id" = some (Value.num sid) := by
  induction items with
  | nil =>
      intro db db' evs h e he
      unfold historyLoop at h
      simp only [Except.ok.injEq, Prod.mk.injEq] at h
      rw [← h.2] at he
      cases he
  | cons item rest ih =>
      intro db db' evs h e he
      obtain ⟨q, qs, db2, evs', _, hloop, _, hevs⟩ :=
        historyLoop_cons_ok db sid item rest db' evs h
      rw [hevs] at he
      rcases List.mem_cons.mp he with rfl | he'
      · exact ⟨setEntry item "stock_id" (Value.num sid), rfl,
          lookup_setEntry_self item "stock_id" (Value.num sid)⟩
      · exact ih _ db2 evs' hloop e he'

theorem fetch_trades_inv (db : DB) (ticker : String) (page : Nat) (trades : List Data)
    (db' : DB) (msg : String) (evs : List Ev)
    (h : fetch_trades db ticker page trades = .ok (db', msg, evs)) :
    ∃ stock ss evs',
      upsert stockModel db.stocks [("ticker", Value.str ticker)] ["ticker"] = .ok (stock, ss)
      ∧ tradesLoop { db with stocks := ss } stock.rid trades = .ok (db', evs')
      ∧ evs = Ev.upsertStock [("ticker", Value.str ticker)] stock.rid :: evs' := by
  simp only [fetch_trades] at h
  cases hup : upsert stockModel db.stocks [("ticker", Value.str ticker)] ["ticker"] with
  | error e =>
      rw [hup] at h
      simp [Bind.bind, Except.bind] at h
  | ok p =>
      obtain ⟨stock, ss⟩ := p
      rw [hup] at h
      simp only [Bind.bind, Except.bind] at h
      cases hloop : tradesLoop { db with stocks := ss } stock.rid trades with
      | error e =>
          rw [hloop] at h
          simp at h
      | ok q =>
          obtain ⟨db2, evs'⟩ := q
          rw [hloop] at h
          simp only [Except.ok.injEq, Prod.mk.injEq] at h
          exact ⟨stock, ss, evs', rfl, h.1 ▸ hloop, h.2.2.symm⟩

theorem fetch_history_inv (db : DB) (ticker : String) (history : List Data)
    (db' : DB) (msg : String) (evs : List Ev)
    (h : fetch_history db ticker history = .ok (db', msg, evs)) :
    ∃ stock ss evs',
      upsert stockModel db.stocks [("ticker", Value.str ticker)] ["ticker"] = .ok (stock, ss)
      ∧ historyLoop { db with stocks := ss } stock.rid history = .ok (db', evs')
      ∧ evs = Ev.upsertStock [("ticker", Value.str ticker)] stock.rid :: evs' := by
  simp only [fetch_history] at h
  cases hup : upsert stockModel db.stocks [("ticker", Value.str ticker)] ["ticker"] with
  | error e =>
      rw [hup] at h
      simp [Bind.bind, Except.bind] at h
  | ok p =>
      obtain ⟨stock, ss⟩ := p
      rw [hup] at h
      simp only [Bind.bind, Except.bind] at h
      cases hloop : historyLoop { db with stocks := ss } stock.rid history with
      | error e =>
          rw [hloop] at h
          simp at h
      | ok q =>
          obtain ⟨db2, evs'⟩ := q
          rw [hloop] at h
          simp only [Except.ok.injEq, Prod.mk.injEq] at h
          exact ⟨stock, ss, evs', rfl, h.1 ▸ hloop, h.2.2.symm⟩

/-- **C9.** Dependency order inside a task: in a trade-fetch task's
database-operation trace, the `Insider` upsert for each parsed trade row
(yielding the insider's id) occurs strictly before the `Trade` insert that
references that id; in a history task the `Stock` upsert is the first
operation and strictly precedes every `Quote` upsert, and every upserted
quote carries that stock's id. -/
theorem C9_dependency_order (db : DB) (ticker : String) (page : Nat)
    (trades : List Data) (history : List Data) :
    (∀ db' msg evs, fetch_trades db ticker page trades = .ok (db', msg, evs) →
      ∀ i, i < trades.length →
        ∃ insData iid trData,
          evs[1 + 3 * i]? = some (Ev.upsertInsider insData iid)
          ∧ evs[2 + 3 * i]? = some (Ev.addTrade trData)
          ∧ trData.lookup "insider_id" = some (Value.num iid))
    ∧ (∀ db' msg evs, fetch_history db ticker history = .ok (db', msg, evs) →
      ∃ sd sid, evs[0]? = some (Ev.upsertStock sd sid)
        ∧ ∀ j dd, evs[j]? = some (Ev.upsertQuote dd) →
            1 ≤ j ∧ dd.lookup "stock_id" = some (Value.num sid)) := by
  constructor
  · intro db' msg evs h i hi
    obtain ⟨stock, ss, evs', _, hloop, hevs⟩ :=
      fetch_trades_inv db ticker page trades db' msg evs h
    obtain ⟨insData, iid, trData, h1, h2, h3⟩ :=
      tradesLoop_events stock.rid trades _ db' evs' hloop i hi
    refine ⟨insData, iid, trData, ?_, ?_, h3⟩
    · rw [hevs, show 1 + 3 * i = 3 * i + 1 by omega, List.getElem?_cons_succ]
      exact h1
    · rw [hevs, show 2 + 3 * i = 3 * i + 1 + 1 by omega, List.getElem?_cons_succ]
      exact h2
  · intro db' msg evs h
    obtain ⟨stock, ss, evs', _, hloop, hevs⟩ :=
      fetch_history_inv db ticker history db' msg evs h
    refine ⟨[("ticker", Value.str ticker)], stock.rid,
      by rw [hevs]; exact List.getElem?_cons_zero, ?_⟩
    intro j dd hj
    cases j with
    | zero =>
        rw [hevs] at hj
        simp only [List.getElem?_cons_zero, Option.some.injEq] at hj
        exact Ev.noConfusion hj
    | succ j' =>
        rw [hevs, List.getElem?_cons_succ] at hj
        have hmem := mem_of_getElem_opt hj
        obtain ⟨dd2, he, hdd⟩ := historyLoop_events stock.rid history _ db' evs' hloop _ hmem
        have : dd2 = dd := by
          cases he
          rfl
        exact ⟨Nat.succ_le_succ (Nat.zero_le j'), this ▸ hdd⟩

theorem C9_dependency_order_witness :
    (fetch_trades ⟨⟨[], 0⟩, ⟨[], 0⟩, ⟨[], 0⟩, ⟨[], 0⟩⟩ "AAPL" 1
        [[("insider", Value.str "bob"), ("relation", Value.str "ceo"),
          ("last_date", Value.num 3), ("shares_traded", Value.num 5)]]
      = .ok (⟨⟨[⟨0, [("ticker", Value.str "AAPL")]⟩], 1⟩, ⟨[], 0⟩,
              ⟨[⟨0, [("name", Value.str "bob"), ("relation", Value.str "ceo")]⟩], 1⟩,
              ⟨[⟨0, [("stock_id", Value.num 0), ("insider_id", Value.num 0),
                     ("last_date", Value.num 3), ("shares_traded", Value.num 5)]⟩], 1⟩⟩,
             toString (1 : Nat) ++ " trade items for " ++ squote ++ "AAPL" ++ squote
               ++ " has been collected (page: " ++ toString (1 : Nat) ++ ")",
             [Ev.upsertStock [("ticker", Value.str "AAPL")] 0,
              Ev.upsertInsider [("name", Value.str "bob"), ("relation", Value.str "ceo")] 0,
              Ev.addTrade [("stock_id", Value.num 0), ("insider_id", Value.num 0),
                ("last_date", Value.num 3), ("shares_traded", Value.num 5)],
              Ev.commitEv])
    ∧ fetch_history ⟨⟨[], 0⟩, ⟨[], 0⟩, ⟨[], 0⟩, ⟨[], 0⟩⟩ "AAPL"
        [[("date", Value.num 1), ("open_price", Value.num 2), ("close_price", Value.num 2),
          ("high_price", Value.num 2), ("low_price", Value.num 2), ("volume", Value.num 9)]]
      = .ok (⟨⟨[⟨0, [("ticker", Value.str "AAPL")]⟩], 1⟩,
              ⟨[⟨0, [("date", Value.num 1), ("open_price", Value.num 2),
                     ("close_price", Value.num 2), ("high_price", Value.num 2),
                     ("low_price", Value.num 2), ("volume", Value.num 9),
                     ("stock_id", Value.num 0)]⟩], 1⟩,
              ⟨[], 0⟩, ⟨[], 0⟩⟩,
             toString (1 : Nat) ++ " history items for " ++ squote ++ "AAPL" ++ squote
               ++ " has been collected",
             [Ev.upsertStock [("ticker", Value.str "AAPL")] 0,
              Ev.upsertQuote [("date", Value.num 1), ("open_price", Value.num 2),
                ("close_price", Value.num 2), ("high_price", Value.num 2),
                ("low_price", Value.num 2), ("volume", Value.num 9),
                ("stock_id", Value.num 0)]]))
    ∧ ((∀ i, i < 1 →
        ∃ insData iid trData,
          ([Ev.upsertStock [("ticker", Value.str "AAPL")] 0,
            Ev.upsertInsider [("name", Value.str "bob"), ("relation", Value.str "ceo")] 0,
            Ev.addTrade [("stock_id", Value.num 0), ("insider_id", Value.num 0),
              ("last_date", Value.num 3), ("shares_traded", Value.num 5)],
            Ev.commitEv] : List Ev)[1 + 3 * i]? = some (Ev.upsertInsider insData iid)
          ∧ ([Ev.upsertStock [("ticker", Value.str "AAPL")] 0,
              Ev.upsertInsider [("name", Value.str "bob"), ("relation", Value.str "ceo")] 0,
              Ev.addTrade [("stock_id", Value.num 0), ("insider_id", Value.num 0),
                ("last_date", Value.num 3), ("shares_traded", Value.num 5)],
              Ev.commitEv] : List Ev)[2 + 3 * i]? = some (Ev.addTrade trData)
          ∧ trData.lookup "insider_id" = some (Value.num iid))
      ∧ (∃ sd sid,
          ([Ev.upsertStock [("ticker", Value.str "AAPL")] 0,
            Ev.upsertQuote [("date", Value.num 1), ("open_price", Value.num 2),
              ("close_price", Value.num 2), ("high_price", Value.num 2),
              ("low_price", Value.num 2), ("volume", Value.num 9),
              ("stock_id", Value.num 0)]] : List Ev)[0]? = some (Ev.upsertStock sd sid)
          ∧ ∀ j dd,
              ([Ev.upsertStock [("ticker", Value.str "AAPL")] 0,
                Ev.upsertQuote [("date", Value.num 1), ("open_price", Value.num 2),
                  ("close_price", Value.num 2), ("high_price", Value.num 2),
                  ("low_price", Value.num 2), ("volume", Value.num 9),
                  ("stock_id", Value.num 0)]] : List Ev)[j]? = some (Ev.upsertQuote dd) →
              1 ≤ j ∧ dd.lookup "stock_id" = some (Value.num sid))) :=
  ⟨⟨by decide, by decide⟩,
   ⟨(C9_dependency_order ⟨⟨[], 0⟩, ⟨[], 0⟩, ⟨[], 0⟩, ⟨[], 0⟩⟩ "AAPL" 1
        [[("insider", Value.str "bob"), ("relation", Value.str "ceo"),
          ("last_date", Value.num 3), ("shares_traded", Value.num 5)]]
        [[("date", Value.num 1), ("open_price", Value.num 2), ("close_price", Value.num 2),
          ("high_price", Value.num 2), ("low_price", Value.num 2),
          ("volume", Value.num 9)]]).1
      ⟨⟨[⟨0, [("ticker", Value.str "AAPL")]⟩], 1⟩, ⟨[], 0⟩,
       ⟨[⟨0, [("name", Value.str "bob"), ("relation", Value.str "ceo")]⟩], 1⟩,
       ⟨[⟨0, [("stock_id", Value.num 0), ("insider_id", Value.num 0),
              ("last_date", Value.num 3), ("shares_traded", Value.num 5)]⟩], 1⟩⟩
      (toString (1 : Nat) ++ " trade items for " ++ squote ++ "AAPL" ++ squote
        ++ " has been collected (page: " ++ toString (1 : Nat) ++ ")")
      [Ev.upsertStock [("ticker", Value.str "AAPL")] 0,
       Ev.upsertInsider [("name", Value.str "bob"), ("relation", Value.str "ceo")] 0,
       Ev.addTrade [("stock_id", Value.num 0), ("insider_id", Value.num 0),
         ("last_date", Value.num 3), ("shares_traded", Value.num 5)],
       Ev.commitEv] (by decide),
    (C9_dependency_order ⟨⟨[], 0⟩, ⟨[], 0⟩, ⟨[], 0⟩, ⟨[], 0⟩⟩ "AAPL" 1
        [[("insider", Value.str "bob"), ("relation", Value.str "ceo"),
          ("last_date", Value.num 3), ("shares_traded", Value.num 5)]]
        [[("date", Value.num 1), ("open_price", Value.num 2), ("close_price", Value.num 2),
          ("high_price", Value.num 2), ("low_price", Value.num 2),
          ("volume", Value.num 9)]]).2
      ⟨⟨[⟨0, [("ticker", Value.str "AAPL")]⟩], 1⟩,
       ⟨[⟨0, [("date", Value.num 1), ("open_price", Value.num 2),
              ("close_price", Value.num 2), ("high_price", Value.num 2),
              ("low_price", Value.num 2), ("volume", Value.num 9),
              ("stock_id", Value.num 0)]⟩], 1⟩,
       ⟨[], 0⟩, ⟨[], 0⟩⟩
      (toString (1 : Nat) ++ " history items for " ++ squote ++ "AAPL" ++ squote
        ++ " has been collected")
      [Ev.upsertStock [("ticker", Value.str "AAPL")] 0,
       Ev.upsertQuote [("date", Value.num 1), ("open_price", Value.num 2),
         ("close_price", Value.num 2), ("high_price", Value.num 2),
         ("low_price", Value.num 2), ("volume", Value.num 9),
         ("stock_id", Value.num 0)]] (by decide)⟩⟩

/-! ## Orchestrator theorems -/

theorem scheduledTasks_nil (n : Nat) : scheduledTasks [] n = [] := rfl

theorem scheduledTasks_cons (t : String) (rest : List String) (n : Nat) :
    scheduledTasks (t :: rest) n = taskGroup n t ++ scheduledTasks rest n := rfl

theorem count_trades_range (t : String) (p n : Nat) :
    ((List.range n).map fun q => FetchTask.trades t (q + 1)).count (FetchTask.trades t p)
      = if 1 ≤ p ∧ p ≤ n then 1 else 0 := by
  induction n with
  | zero =>
      simp only [List.range_zero, List.map_nil, List.count_nil]
      rw [if_neg (show ¬(1 ≤ p ∧ p ≤ 0) by omega)]
  | succ n ih =>
      rw [List.range_succ, List.map_append, List.count_append, ih]
      simp only [List.map_cons, List.map_nil, List.count_cons, List.count_nil, beq_iff_eq,
        FetchTask.trades.injEq, eq_self_iff_true, true_and]
      split_ifs <;> omega

theorem count_group_trades (t t' : String) (p n : Nat) :
    (taskGroup n t').count (FetchTask.trades t p)
      = if t' = t ∧ 1 ≤ p ∧ p ≤ n then 1 else 0 := by
  unfold taskGroup
  simp only [List.count_cons, beq_iff_eq]
  have hh : ¬(FetchTask.history t' = FetchTask.trades t p) := fun h => FetchTask.noConfusion h
  rw [if_neg hh, Nat.add_zero]
  by_cases ht : t' = t
  · subst ht
    rw [count_trades_range]
    by_cases h1 : 1 ≤ p ∧ p ≤ n
    · rw [if_pos h1, if_pos ⟨rfl, h1⟩]
    · rw [if_neg h1, if_neg fun h => h1 h.2]
  · have hz : ((List.range n).map fun q => FetchTask.trades t' (q + 1)).count
        (FetchTask.trades t p) = 0 := by
      refine List.count_eq_zero.mpr fun hmem => ?_
      obtain ⟨q, _, he⟩ := List.mem_map.mp hmem
      rw [FetchTask.trades.injEq] at he
      exact ht he.1
    rw [hz, if_neg fun h => ht h.1]

theorem count_group_history (t t' : String) (n : Nat) :
    (taskGroup n t').count (FetchTask.history t) = if t' = t then 1 else 0 := by
  unfold taskGroup
  simp only [List.count_cons, beq_iff_eq]
  have hz : ((List.range n).map fun q => FetchTask.trades t' (q + 1)).count
      (FetchTask.history t) = 0 := by
    refine List.count_eq_zero.mpr fun hmem => ?_
    obtain ⟨q, _, he⟩ := List.mem_map.mp hmem
    exact FetchTask.noConfusion he
  rw [hz]
  by_cases ht : t' = t
  · subst ht
    rw [if_pos rfl, if_pos rfl]
  · rw [if_neg (show ¬(FetchTask.history t' = FetchTask.history t) from
      fun h => ht (by injection h)), if_neg ht]

/-- **C3.** The submission loop of `fetch` schedules exactly one history
task per ticker occurrence plus exactly `maxTradesPages` trade-page tasks
per ticker occurrence, with page numbers `1..maxTradesPages` (so 3 tickers
with `maxTradesPages = 2` give `3 * (1 + 2) = 9` tasks), and the
collection loop observes one terminal (success-or-failure) log entry for
every scheduled task, in whatever order the futures complete, before
`fetch` returns. -/
theorem C3_fetch_schedules (tickers : List String) (n : Nat) :
    ((scheduledTasks tickers n).length = tickers.length * (1 + n))
    ∧ (∀ t, (scheduledTasks tickers n).count (FetchTask.history t) = tickers.count t)
    ∧ (∀ t p, 1 ≤ p → p ≤ n →
        (scheduledTasks tickers n).count (FetchTask.trades t p) = tickers.count t)
    ∧ (∀ t p, p = 0 ∨ n < p →
        (scheduledTasks tickers n).count (FetchTask.trades t p) = 0)
    ∧ (∀ (outcome : FetchTask → Except String String) (order : List FetchTask),
        order.Perm (scheduledTasks tickers n) →
        (fetchCollect outcome order).Perm
          ((scheduledTasks tickers n).map fun task => taskLog (outcome task))) := by
  refine ⟨?_, ?_, ?_, ?_, ?_⟩
  · induction tickers with
    | nil => simp [scheduledTasks_nil]
    | cons t rest ih =>
        rw [scheduledTasks_cons, List.length_append, ih, List.length_cons]
        have h1 : (taskGroup n t).length = 1 + n := by
          unfold taskGroup
          rw [List.length_cons, List.length_map, List.length_range]
          omega
        rw [h1]
        ring
  · intro t
    induction tickers with
    | nil => simp [scheduledTasks_nil]
    | cons t' rest ih =>
        rw [scheduledTasks_cons, List.count_append, ih, count_group_history,
          List.count_cons]
        simp only [beq_iff_eq]
        by_cases ht : t' = t
        · rw [if_pos ht]
          omega
        · rw [if_neg ht]
          omega
  · intro t p h1 h2
    induction tickers with
    | nil => simp [scheduledTasks_nil]
    | cons t' rest ih =>
        rw [scheduledTasks_cons, List.count_append, ih, count_group_trades,
          List.count_cons]
        simp only [beq_iff_eq]
        by_cases ht : t' = t
        · rw [if_pos ⟨ht, h1, h2⟩, if_pos ht]
          omega
        · rw [if_neg (fun h => ht h.1), if_neg ht]
          omega
  · intro t p hp
    induction tickers with
    | nil => simp [scheduledTasks_nil]
    | cons t' rest ih =>
        rw [scheduledTasks_cons, List.count_append, ih, count_group_trades,
          if_neg (show ¬(t' = t ∧ 1 ≤ p ∧ p ≤ n) from
            fun h => by rcases hp with hp | hp <;> omega)]
  · intro outcome order horder
    exact horder.map fun task => taskLog (outcome task)

theorem C3_fetch_schedules_witness :
    ((scheduledTasks ["A", "B", "C"] 2).length = 9)
    ∧ ((scheduledTasks ["A", "B", "C"] 2).count (FetchTask.history "A") = 1)
    ∧ (1 ≤ 2 ∧ 2 ≤ 2
      ∧ (scheduledTasks ["A", "B", "C"] 2).count (FetchTask.trades "B" 2) = 1)
    ∧ (2 < 3 ∧ (scheduledTasks ["A", "B", "C"] 2).count (FetchTask.trades "B" 3) = 0) :=
  ⟨(C3_fetch_schedules ["A", "B", "C"] 2).1,
   (C3_fetch_schedules ["A", "B", "C"] 2).2.1 "A",
   ⟨by decide, by decide,
    (C3_fetch_schedules ["A", "B", "C"] 2).2.2.1 "B" 2 (by decide) (by decide)⟩,
   ⟨by decide,
    (C3_fetch_schedules ["A", "B", "C"] 2).2.2.2.1 "B" 3 (Or.inr (by decide))⟩⟩

/-- **C4** counterexample: the claim says a task's exception is "logged
with the task's identifying context (ticker, page)"; the collection loop
logs only the exception's own text, so a task for ticker AAPL, page 3
failing with message "boom" produces a log entry containing neither the
ticker nor the page number. -/
theorem C4_context_counterexample :
    (fetchCollect
        (fun t => if t = FetchTask.trades "AAPL" 3 then Except.error "boom" else Except.ok "ok")
        (scheduledTasks ["AAPL"] 3))[3]?
      = some (LogEntry.error "Fetching task failed: boom")
    ∧ hasSubstr "Fetching task failed: boom" "AAPL" = false
    ∧ hasSubstr "Fetching task failed: boom" "3" = false := by
  decide

/-- **C4** (amended). Each task's outcome is handled at the task boundary
by the collection loop of `fetch`: a raised exception is caught and logged
as an error entry carrying the exception's message (which need not name
the ticker or page), a result is logged as an info entry, nothing is
re-raised, exactly one log entry is produced per scheduled task however
many fail, and the entry recorded at a task's position depends only on
that task's own outcome. -/
theorem C4_task_error_isolation (outcome outcome2 : FetchTask → Except String String)
    (order : List FetchTask) :
    ((fetchCollect outcome order).length = order.length)
    ∧ (∀ (i : Nat) (task : FetchTask), order[i]? = some task →
        (fetchCollect outcome order)[i]? = some (taskLog (outcome task)))
    ∧ (∀ e, taskLog (.error e) = .error ("Fetching task failed: " ++ e))
    ∧ (∀ m, taskLog (.ok m) = .info ("Fetching task finished: " ++ m))
    ∧ (∀ task, outcome task = outcome2 task →
        ∀ (i : Nat), order[i]? = some task →
          (fetchCollect outcome order)[i]? = (fetchCollect outcome2 order)[i]?) := by
  refine ⟨List.length_map order _, ?_, fun e => rfl, fun m => rfl, ?_⟩
  · intro i task hi
    unfold fetchCollect
    rw [List.getElem?_map, hi]
    rfl
  · intro task hsame i hi
    unfold fetchCollect
    rw [List.getElem?_map, List.getElem?_map, hi]
    simp [hsame]

theorem C4_task_error_isolation_witness :
    ((scheduledTasks ["AAPL"] 3)[3]? = some (FetchTask.trades "AAPL" 3))
    ∧ (fetchCollect
        (fun t => if t = FetchTask.trades "AAPL" 3 then Except.error "boom" else Except.ok "ok")
        (scheduledTasks ["AAPL"] 3))[3]?
      = some (taskLog
          ((fun t => if t = FetchTask.trades "AAPL" 3 then Except.error "boom"
            else Except.ok "ok") (FetchTask.trades "AAPL" 3))) :=
  ⟨by decide,
   (C4_task_error_isolation
      (fun t => if t = FetchTask.trades "AAPL" 3 then Except.error "boom" else Except.ok "ok")
      (fun t => if t = FetchTask.trades "AAPL" 3 then Except.error "boom" else Except.ok "ok")
      (scheduledTasks ["AAPL"] 3)).2.1 3 (FetchTask.trades "AAPL" 3) (by decide)⟩

end StocksApp
